import Mathlib

/-!
Shallow embedding of the decibelle tree-walking interpreter
(src/src/interpreter.rs) and proofs about its semantics.

Modelling conventions:
* Rust's `Value::Number(f64)` is modelled with `Rat`; the IEEE-754-specific
  behaviour of `f64` (infinities, NaN, rounding) is outside this model, and
  every claim we settle here is independent of it.
* `HashMap<String, Value>` is modelled as an association list whose only
  observations — `get` (first match) and `contains_key` — coincide with the
  hash map's, and whose `insert` shadows by consing (observationally equal to
  the hash map's replacing insert under those observations).
* The Rust `Vec` of environments pushes at the back and is always iterated
  in reverse (innermost first); we keep the list with the innermost
  environment at the HEAD, so pushing is consing and iteration is in order.
* Every `unreachable!()` / `.unwrap()` panic of the source is an explicit
  `Fault`; `values[index]` out of range panics likewise.
* `While` can diverge, so statement interpretation takes fuel; running out of
  fuel is a distinct `timeout` outcome, never confused with a fault.
* `println!` output is modelled as the list of printed values.
-/

/-- Runtime values: Number (f64, modelled as Rat), String, Boolean, Tuple. -/
inductive Value where
  | number : Rat → Value
  | string : String → Value
  | boolean : Bool → Value
  | tuple : List Value → Value


/-- Unary operators of the AST. -/
inductive UnaryOperation where
  | minus
  | not
deriving DecidableEq


/-- Binary operators of the AST. -/
inductive BinaryOperation where
  | add
  | subtract
  | multiply
  | divide
  | equal
  | notEqual
  | less
  | lessEqual
  | greater
  | greaterEqual
  | or
  | and
  | assignment
deriving DecidableEq


/-- Expression AST nodes (the `ExpressionType` enum of the parser). -/
inductive Expression where
  | unary : UnaryOperation → Expression → Expression
  | binary : BinaryOperation → Expression → Expression → Expression
  | variable : String → Expression
  | literal : Value → Expression
  | grouping : Expression → Expression
  | tuple : List Expression → Expression
  | tupleAccess : Expression → Nat → Expression


/-- Statement AST nodes (the `StatementType` enum of the parser). -/
inductive Statement where
  | expression : Expression → Statement
  | variableDeclaration : String → Expression → Statement
  | block : List Statement → Statement
  | ifS : Expression → Statement → Option Statement → Statement
  | whileS : Expression → Statement → Statement


/-- A binding table (`HashMap<String, Value>`): an association list observed
through first-match lookup. -/
abbrev Env := List (String × Value)


/-- Lookup (`HashMap::get`): first match wins. -/
def Env.find (m : Env) (x : String) : Option Value :=
  match m with
  | [] => none
  | (y, v) :: rest => if y = x then some v else Env.find rest x


/-- Insert (`HashMap::insert`): the new entry shadows older ones. -/
def Env.insert (m : Env) (x : String) (v : Value) : Env :=
  (x, v) :: m


/-- The scope stack: the caller-owned global table plus the stack of
block-local tables, innermost at the head. -/
structure Variables where
  global_variables : Env
  environments : List Env


/-- Lookup through a stack of environments, innermost first
(the `for environment in self.environments.iter().rev()` loop). -/
def lookupEnvs (envs : List Env) (x : String) : Option Value :=
  match envs with
  | [] => none
  | e :: rest =>
    match e.find x with
    | some v => some v
    | none => lookupEnvs rest x


/-- `Variables::get_variable`: innermost block table first, then outward,
then the global table. -/
def Variables.get_variable (vs : Variables) (x : String) : Option Value :=
  match lookupEnvs vs.environments x with
  | some v => some v
  | none => vs.global_variables.find x


/-- Update the innermost environment that already contains the key
(the first loop of `Variables::set_variable`); `none` when no block
table holds it. -/
def setEnvs (envs : List Env) (x : String) (v : Value) : Option (List Env) :=
  match envs with
  | [] => none
  | e :: rest =>
    if (e.find x).isSome then
      some (e.insert x v :: rest)
    else
      match setEnvs rest x v with
      | some rest' => some (e :: rest')
      | none => none


/-- `Variables::set_variable`: sets an existing binding, innermost table
first, then global; fails (returns `none`) when no table holds the name.
It never creates a binding. -/
def Variables.set_variable (vs : Variables) (x : String) (v : Value) :
    Option Variables :=
  match setEnvs vs.environments x v with
  | some envs' => some { vs with environments := envs' }
  | none =>
    if (vs.global_variables.find x).isSome then
      some { vs with global_variables := vs.global_variables.insert x v }
    else
      none


/-- `Variables::create_variable`: declare into the innermost block table if
one exists, else into the global table. -/
def Variables.create_variable (vs : Variables) (x : String) (v : Value) :
    Variables :=
  match vs.environments with
  | e :: rest => { vs with environments := e.insert x v :: rest }
  | [] => { vs with global_variables := vs.global_variables.insert x v }


/-- `Variables::push_environment`. -/
def Variables.push_environment (vs : Variables) : Variables :=
  { vs with environments := [] :: vs.environments }


/-- `Variables::pop_environment`. -/
def Variables.pop_environment (vs : Variables) : Variables :=
  { vs with environments := vs.environments.tail }


/-- The fatal conditions of the interpreter: every `unreachable!()`,
failed `.unwrap()`, and out-of-range `values[index]` panic. -/
inductive Fault where
  | typeFault
  | undefinedVariable
  | indexOutOfRange
deriving DecidableEq


/-- Result of interpreting: a value, a fatal fault, or fuel exhaustion
(the latter only for statements, whose `While` can diverge). -/
inductive Res (α : Type) where
  | ok : α → Res α
  | fault : Fault → Res α
  | timeout : Res α


/-- Sequencing of interpreter steps. -/
def Res.bind {α β : Type} (r : Res α) (f : α → Res β) : Res β :=
  match r with
  | .ok a => f a
  | .fault e => .fault e
  | .timeout => .timeout


/-- Walk a tuple-access chain to its root expression (the shape the
assignment lvalue loop traverses). -/
def chainRoot (e : Expression) : Expression :=
  match e with
  | .tupleAccess inner _ => chainRoot inner
  | _ => e


/-- Collect the index chain of an lvalue exactly as the Rust loop does:
indices are pushed outermost-first while descending to the root. -/
def collectChain (e : Expression) (indices : List Nat) :
    Expression × List Nat :=
  match e with
  | .tupleAccess inner index => collectChain inner (indices.concat index)
  | _ => (e, indices)


/-- Rewrite the element of `v` addressed by the root-to-leaf index path
(the `for &index in indices.iter().rev()` walk followed by
`*lvalue = value`): a non-tuple on the path is the `unreachable!()` type
fault, an out-of-range index is the `values[index]` panic. -/
def setPath (v : Value) (path : List Nat) (newValue : Value) : Res Value :=
  match path with
  | [] => .ok newValue
  | i :: rest =>
    match v with
    | .tuple values =>
      if h : i < values.length then
        match setPath (values.get ⟨i, h⟩) rest newValue with
        | .ok w => .ok (.tuple (values.set i w))
        | .fault e => .fault e
        | .timeout => .timeout
      else
        .fault .indexOutOfRange
    | _ => .fault .typeFault


/-- Interpret an lvalue whose outermost node is a `TupleAccess`, after the
right-hand value has been computed: mirror of the `loop` in the Assignment
branch of `interpret_expression`. `root` and `indices` come from
`collectChain`; `base` is the outermost access's child expression, the one
the catch-all arm evaluates for a non-lvalue root. The `Res` returned for
the non-lvalue root is the result of that evaluation, supplied by the
caller to keep this function non-recursive. -/
def assignToChain (root : Expression) (indices : List Nat) (value : Value)
    (vs : Variables) (baseEval : Res (Value × Variables)) :
    Res (Value × Variables) :=
  match root with
  | .variable x =>
    match vs.get_variable x with
    | some variable_value =>
      match setPath variable_value indices.reverse value with
      | .ok new_value =>
        match vs.set_variable x new_value with
        | some vs' => .ok (value, vs')
        | none => .fault .undefinedVariable
      | .fault e => .fault e
      | .timeout => .timeout
    | none => .fault .undefinedVariable
  | _ =>
    Res.bind baseEval fun p => .ok (value, p.2)


mutual

/-- Mirror of `interpret_expression`: reduces an expression to a `Value`,
threading the scope stack (which assignments mutate). Every
`unreachable!()` of the source is a `.fault .typeFault`, every failed
`.unwrap()` on a variable is `.fault .undefinedVariable`. -/
def interpret_expression (e : Expression) (vs : Variables) :
    Res (Value × Variables) :=
  match e with
  | .unary .minus inner =>
    Res.bind (interpret_expression inner vs) fun p =>
      match p.1 with
      | .number n => .ok (.number (-n), p.2)
      | _ => .fault .typeFault
  | .unary .not inner =>
    Res.bind (interpret_expression inner vs) fun p =>
      match p.1 with
      | .boolean b => .ok (.boolean (!b), p.2)
      | _ => .fault .typeFault
  | .binary .add l r =>
    Res.bind (interpret_expression l vs) fun p =>
    Res.bind (interpret_expression r p.2) fun q =>
      match p.1, q.1 with
      | .number a, .number b => .ok (.number (a + b), q.2)
      | .string a, .string b => .ok (.string (a ++ b), q.2)
      | _, _ => .fault .typeFault
  | .binary .subtract l r =>
    Res.bind (interpret_expression l vs) fun p =>
    Res.bind (interpret_expression r p.2) fun q =>
      match p.1, q.1 with
      | .number a, .number b => .ok (.number (a - b), q.2)
      | _, _ => .fault .typeFault
  | .binary .multiply l r =>
    Res.bind (interpret_expression l vs) fun p =>
    Res.bind (interpret_expression r p.2) fun q =>
      match p.1, q.1 with
      | .number a, .number b => .ok (.number (a * b), q.2)
      | _, _ => .fault .typeFault
  | .binary .divide l r =>
    Res.bind (interpret_expression l vs) fun p =>
    Res.bind (interpret_expression r p.2) fun q =>
      match p.1, q.1 with
      | .number a, .number b => .ok (.number (a / b), q.2)
      | _, _ => .fault .typeFault
  | .binary .equal l r =>
    Res.bind (interpret_expression l vs) fun p =>
    Res.bind (interpret_expression r p.2) fun q =>
      match p.1, q.1 with
      | .number a, .number b => .ok (.boolean (a = b), q.2)
      | .string a, .string b => .ok (.boolean (a = b), q.2)
      | .boolean a, .boolean b => .ok (.boolean (a = b), q.2)
      | _, _ => .fault .typeFault
  | .binary .notEqual l r =>
    Res.bind (interpret_expression l vs) fun p =>
    Res.bind (interpret_expression r p.2) fun q =>
      match p.1, q.1 with
      | .number a, .number b => .ok (.boolean (a ≠ b), q.2)
      | .string a, .string b => .ok (.boolean (a ≠ b), q.2)
      | .boolean a, .boolean b => .ok (.boolean (a ≠ b), q.2)
      | _, _ => .fault .typeFault
  | .binary .less l r =>
    Res.bind (interpret_expression l vs) fun p =>
    Res.bind (interpret_expression r p.2) fun q =>
      match p.1, q.1 with
      | .number a, .number b => .ok (.boolean (a < b), q.2)
      | .string a, .string b => .ok (.boolean (a < b), q.2)
      | _, _ => .fault .typeFault
  | .binary .lessEqual l r =>
    Res.bind (interpret_expression l vs) fun p =>
    Res.bind (interpret_expression r p.2) fun q =>
      match p.1, q.1 with
      | .number a, .number b => .ok (.boolean (a ≤ b), q.2)
      | .string a, .string b => .ok (.boolean (a ≤ b), q.2)
      | _, _ => .fault .typeFault
  | .binary .greater l r =>
    Res.bind (interpret_expression l vs) fun p =>
    Res.bind (interpret_expression r p.2) fun q =>
      match p.1, q.1 with
      | .number a, .number b => .ok (.boolean (b < a), q.2)
      | .string a, .string b => .ok (.boolean (b < a), q.2)
      | _, _ => .fault .typeFault
  | .binary .greaterEqual l r =>
    Res.bind (interpret_expression l vs) fun p =>
    Res.bind (interpret_expression r p.2) fun q =>
      match p.1, q.1 with
      | .number a, .number b => .ok (.boolean (b ≤ a), q.2)
      | .string a, .string b => .ok (.boolean (b ≤ a), q.2)
      | _, _ => .fault .typeFault
  | .binary .or l r =>
    Res.bind (interpret_expression l vs) fun p =>
      match p.1 with
      | .boolean true => .ok (.boolean true, p.2)
      | _ => interpret_expression r p.2
  | .binary .and l r =>
    Res.bind (interpret_expression l vs) fun p =>
      match p.1 with
      | .boolean false => .ok (.boolean false, p.2)
      | _ => interpret_expression r p.2
  | .binary .assignment lhs rhs =>
    Res.bind (interpret_expression rhs vs) fun p =>
      match lhs with
      | .variable x =>
        match p.2.set_variable x p.1 with
        | some vs' => .ok (p.1, vs')
        | none => .fault .undefinedVariable
      | .tupleAccess base index =>
        match collectChain base [index] with
        | (root, indices) =>
          assignToChain root indices p.1 p.2
            (interpret_expression base p.2)
      | _ => .fault .typeFault
  | .variable x =>
    match vs.get_variable x with
    | some v => .ok (v, vs)
    | none => .fault .undefinedVariable
  | .literal v => .ok (v, vs)
  | .grouping inner => interpret_expression inner vs
  | .tuple es =>
    Res.bind (interpret_expressions es vs) fun p =>
      .ok (.tuple p.1, p.2)
  | .tupleAccess inner index =>
    Res.bind (interpret_expression inner vs) fun p =>
      match p.1 with
      | .tuple values =>
        if h : index < values.length then
          .ok (values.get ⟨index, h⟩, p.2)
        else
          .fault .indexOutOfRange
      | _ => .fault .typeFault

/-- Evaluate a list of expressions left to right (the `.iter().map(...)`
of the Tuple branch), threading the scope stack. -/
def interpret_expressions (es : List Expression) (vs : Variables) :
    Res (List Value × Variables) :=
  match es with
  | [] => .ok ([], vs)
  | e :: rest =>
    Res.bind (interpret_expression e vs) fun p =>
    Res.bind (interpret_expressions rest p.2) fun q =>
      .ok (p.1 :: q.1, q.2)

end

/-- Mirror of `interpret_statement` together with the statement-list loops
of `interpret` and the Block branch, as one function that is structurally
recursive on `fuel` (so that concrete runs reduce definitionally). A
statement executes for its side effects on the scope stack and returns the
updated stack and the list of values printed by expression statements.
`fuel` bounds the recursion depth; `.timeout` means it ran out, which no
terminating run does for large enough fuel. -/
def interpStep : Nat → Statement ⊕ List Statement → Variables →
    Res (Variables × List Value)
  | 0, _, _ => .timeout
  | _ + 1, .inl (.expression e), vs =>
    Res.bind (interpret_expression e vs) fun p =>
      .ok (p.2, [p.1])
  | _ + 1, .inl (.variableDeclaration x e), vs =>
    Res.bind (interpret_expression e vs) fun p =>
      .ok (p.2.create_variable x p.1, [])
  | fuel + 1, .inl (.block stmts), vs =>
    Res.bind (interpStep fuel (.inr stmts) vs.push_environment) fun p =>
      .ok (p.1.pop_environment, p.2)
  | fuel + 1, .inl (.ifS cond thenS elseS), vs =>
    Res.bind (interpret_expression cond vs) fun p =>
      match p.1 with
      | .boolean true => interpStep fuel (.inl thenS) p.2
      | .boolean false =>
        match elseS with
        | some s' => interpStep fuel (.inl s') p.2
        | none => .ok (p.2, [])
      | _ => .fault .typeFault
  | fuel + 1, .inl (.whileS cond body), vs =>
    Res.bind (interpret_expression cond vs) fun p =>
      match p.1 with
      | .boolean true =>
        Res.bind (interpStep fuel (.inl body) p.2) fun q =>
        Res.bind (interpStep fuel (.inl (.whileS cond body)) q.1) fun r =>
          .ok (r.1, q.2 ++ r.2)
      | .boolean false => .ok (p.2, [])
      | _ => .fault .typeFault
  | _ + 1, .inr [], vs => .ok (vs, [])
  | fuel + 1, .inr (s :: rest), vs =>
    Res.bind (interpStep fuel (.inl s) vs) fun p =>
    Res.bind (interpStep fuel (.inr rest) p.1) fun q =>
      .ok (q.1, p.2 ++ q.2)


/-- Execute one statement (entry point into `interpStep`). -/
def interpret_statement (fuel : Nat) (s : Statement) (vs : Variables) :
    Res (Variables × List Value) :=
  interpStep fuel (.inl s) vs


/-- Execute a list of statements in order, concatenating printed output. -/
def interpret_statements (fuel : Nat) (stmts : List Statement)
    (vs : Variables) : Res (Variables × List Value) :=
  interpStep fuel (.inr stmts) vs


/-- Mirror of `interpret`: run a program against a caller-owned global
table, starting with no block-local environments. -/
def interpret (fuel : Nat) (statements : List Statement)
    (global_variables : Env) : Res (Env × List Value) :=
  Res.bind
    (interpret_statements fuel statements
      { global_variables := global_variables, environments := [] })
    fun p => .ok (p.1.global_variables, p.2)


/-- The empty scope stack over an empty global table. -/
def emptyVars : Variables := { global_variables := [], environments := [] }


/-- The counter-loop program of C8: declare i = 0, run
`while (i < 3) i = i + 1` (the assignment statement prints the assigned
value, so the output records one line per iteration), then print i. -/
def counterLoopProgram : List Statement :=
  [ .variableDeclaration "i" (.literal (.number 0)),
    .whileS (.binary .less (.variable "i") (.literal (.number 3)))
      (.expression (.binary .assignment (.variable "i")
        (.binary .add (.variable "i") (.literal (.number 1))))),
    .expression (.variable "i") ]


/-- Two tables hold exactly the same names, and agree on the value of every
name outside `A` (the names some code may have assigned to). -/
def EnvAgree (A : List String) (m m' : Env) : Prop :=
  ∀ y, ((m.find y).isSome = (m'.find y).isSome) ∧
    (y ∉ A → m.find y = m'.find y)


/-- Two scope stacks with the same shape: same number of block tables,
tables holding the same names pairwise, and values agreeing outside `A`. -/
def VarsAgree (A : List String) (vs vs' : Variables) : Prop :=
  EnvAgree A vs.global_variables vs'.global_variables ∧
  List.Forall₂ (EnvAgree A) vs.environments vs'.environments


/-- The shadowing program of C4: `var x = 1;` then a block that declares an
inner `x = 2`, prints it, assigns `x = 3` (printing the assigned value),
then after the block prints `x` again at the outer scope. -/
def shadowProgram : List Statement :=
  [ .variableDeclaration "x" (.literal (.number 1)),
    .block
      [ .variableDeclaration "x" (.literal (.number 2)),
        .expression (.variable "x"),
        .expression (.binary .assignment (.variable "x")
          (.literal (.number 3))) ],
    .expression (.variable "x") ]


/-- Is this expression a Variable node? -/
def isVariableExpr : Expression → Bool
  | .variable _ => true
  | _ => false


/-- Is this expression one of the two lvalue head shapes the Assignment
branch matches (Variable or TupleAccess)? Anything else hits the
`unreachable!()` arm. -/
def isLvalueShape : Expression → Bool
  | .variable _ => true
  | .tupleAccess _ _ => true
  | _ => false


/-- Build the lvalue expression for variable `x` followed by a root-to-leaf
chain of tuple accesses: `lvalueChain x [1, 1]` is `x.1.1`. -/
def lvalueChain (x : String) (path : List Nat) : Expression :=
  path.foldl (fun e i => Expression.tupleAccess e i) (.variable x)


/-- Read the element of `v` addressed by a root-to-leaf index path. -/
def getPath : Value → List Nat → Option Value
  | v, [] => some v
  | v, i :: rest =>
    match v with
    | .tuple values =>
      if h : i < values.length then getPath (values.get ⟨i, h⟩) rest
      else none
    | _ => none


/-- The nested-tuple mutation program of C3: `t = (1, (2, 3))`, assign 99
to the second element of the inner tuple (the assignment statement prints
the assigned value), then print `t`. -/
def tupleMutationProgram : List Statement :=
  [ .variableDeclaration "t" (.tuple
      [.literal (.number 1),
       .tuple [.literal (.number 2), .literal (.number 3)]]),
    .expression (.binary .assignment
      (.tupleAccess (.tupleAccess (.variable "t") 1) 1)
      (.literal (.number 99))),
    .expression (.variable "t") ]


mutual

/-- Does the expression contain no Assignment operator anywhere? -/
def assignmentFree : Expression → Bool
  | .unary _ inner => assignmentFree inner
  | .binary .assignment _ _ => false
  | .binary .add l r => assignmentFree l && assignmentFree r
  | .binary .subtract l r => assignmentFree l && assignmentFree r
  | .binary .multiply l r => assignmentFree l && assignmentFree r
  | .binary .divide l r => assignmentFree l && assignmentFree r
  | .binary .equal l r => assignmentFree l && assignmentFree r
  | .binary .notEqual l r => assignmentFree l && assignmentFree r
  | .binary .less l r => assignmentFree l && assignmentFree r
  | .binary .lessEqual l r => assignmentFree l && assignmentFree r
  | .binary .greater l r => assignmentFree l && assignmentFree r
  | .binary .greaterEqual l r => assignmentFree l && assignmentFree r
  | .binary .or l r => assignmentFree l && assignmentFree r
  | .binary .and l r => assignmentFree l && assignmentFree r
  | .variable _ => true
  | .literal _ => true
  | .grouping inner => assignmentFree inner
  | .tuple es => assignmentFreeList es
  | .tupleAccess inner _ => assignmentFree inner

/-- Does every expression of the list contain no Assignment operator? -/
def assignmentFreeList : List Expression → Bool
  | [] => true
  | e :: rest => assignmentFree e && assignmentFreeList rest

end

/-- Names of the root variables of a tuple-access chain (one name when the
chain is rooted at a Variable, none otherwise). -/
def chainRootName : Expression → List String
  | .variable x => [x]
  | .tupleAccess inner _ => chainRootName inner
  | _ => []


mutual

/-- Over-approximation of the variable names an expression may assign to:
every Assignment target's root variable, collected syntactically. -/
def exprAssigned : Expression → List String
  | .unary _ inner => exprAssigned inner
  | .binary .assignment lhs rhs => lhsAssigned lhs ++ exprAssigned rhs
  | .binary .add l r => exprAssigned l ++ exprAssigned r
  | .binary .subtract l r => exprAssigned l ++ exprAssigned r
  | .binary .multiply l r => exprAssigned l ++ exprAssigned r
  | .binary .divide l r => exprAssigned l ++ exprAssigned r
  | .binary .equal l r => exprAssigned l ++ exprAssigned r
  | .binary .notEqual l r => exprAssigned l ++ exprAssigned r
  | .binary .less l r => exprAssigned l ++ exprAssigned r
  | .binary .lessEqual l r => exprAssigned l ++ exprAssigned r
  | .binary .greater l r => exprAssigned l ++ exprAssigned r
  | .binary .greaterEqual l r => exprAssigned l ++ exprAssigned r
  | .binary .or l r => exprAssigned l ++ exprAssigned r
  | .binary .and l r => exprAssigned l ++ exprAssigned r
  | .variable _ => []
  | .literal _ => []
  | .grouping inner => exprAssigned inner
  | .tuple es => exprListAssigned es
  | .tupleAccess inner _ => exprAssigned inner

/-- Names an Assignment with this left-hand side may write: the chain's
root variable, plus anything the outermost access's base might assign when
it is evaluated for side effects (the non-lvalue case). -/
def lhsAssigned : Expression → List String
  | .variable x => [x]
  | .tupleAccess base _ => chainRootName base ++ exprAssigned base
  | _ => []

/-- Union of `exprAssigned` over a list of expressions. -/
def exprListAssigned : List Expression → List String
  | [] => []
  | e :: rest => exprAssigned e ++ exprListAssigned rest

end

mutual

/-- Over-approximation of the variable names a statement may assign to
(declarations are not assignments: they only ever touch the innermost
table and are accounted separately). -/
def stmtAssigned : Statement → List String
  | .expression e => exprAssigned e
  | .variableDeclaration _ e => exprAssigned e
  | .block stmts => stmtListAssigned stmts
  | .ifS c t eOpt =>
    exprAssigned c ++ stmtAssigned t ++
      (match eOpt with
       | some s => stmtAssigned s
       | none => [])
  | .whileS c b => exprAssigned c ++ stmtAssigned b

/-- Union of `stmtAssigned` over a list of statements. -/
def stmtListAssigned : List Statement → List String
  | [] => []
  | s :: rest => stmtAssigned s ++ stmtListAssigned rest

end

/-- What a statement's execution may do to the scope stack, seen from the
enclosing scope: the number of block tables is restored, every table other
than the innermost keeps its keys and its values outside `A`, and when a
block table exists the global table does too. (The innermost table may
gain bindings from declarations.) -/
def StmtAgree (A : List String) (vs vs' : Variables) : Prop :=
  vs'.environments.length = vs.environments.length ∧
  List.Forall₂ (EnvAgree A) vs.environments.tail vs'.environments.tail ∧
  (vs.environments ≠ [] →
    EnvAgree A vs.global_variables vs'.global_variables)


@[simp] theorem Res.bind_ok {α β : Type} (a : α) (f : α → Res β) :
    Res.bind (.ok a) f = f a := rfl


@[simp] theorem Res.bind_fault {α β : Type} (e : Fault) (f : α → Res β) :
    Res.bind (.fault e) f = .fault e := rfl


@[simp] theorem Res.bind_timeout {α β : Type} (f : α → Res β) :
    Res.bind .timeout f = .timeout := rfl


/-- C2: Or returns the left value without evaluating the right operand
exactly when the left value is the Boolean `true`; any other left value
(Boolean `false` or any non-Boolean) falls through to evaluating and
returning the right operand, with no fault. And is the dual with Boolean
`false`. Concretely, `false or "x"` yields the String `"x"`. -/
theorem c2_or_and_short_circuit (l r : Expression) (vs vs' : Variables)
    (v : Value) :
    (interpret_expression l vs = .ok (.boolean true, vs') →
      interpret_expression (.binary .or l r) vs = .ok (.boolean true, vs')) ∧
    (interpret_expression l vs = .ok (v, vs') → v ≠ .boolean true →
      interpret_expression (.binary .or l r) vs =
        interpret_expression r vs') ∧
    (interpret_expression l vs = .ok (.boolean false, vs') →
      interpret_expression (.binary .or l r) vs =
        interpret_expression r vs') ∧
    (interpret_expression l vs = .ok (.boolean false, vs') →
      interpret_expression (.binary .and l r) vs =
        .ok (.boolean false, vs')) ∧
    (interpret_expression l vs = .ok (v, vs') → v ≠ .boolean false →
      interpret_expression (.binary .and l r) vs =
        interpret_expression r vs') ∧
    interpret_expression
      (.binary .or (.literal (.boolean false)) (.literal (.string "x")))
      emptyVars = .ok (.string "x", emptyVars) := by
  refine ⟨?_, ?_, ?_, ?_, ?_, rfl⟩
  · intro h
    rw [interpret_expression, h]
    rfl
  · intro h hv
    rw [interpret_expression, h]
    cases v with
    | boolean b =>
      cases b with
      | true => exact absurd rfl hv
      | false => rfl
    | number n => rfl
    | string s => rfl
    | tuple t => rfl
  · intro h
    rw [interpret_expression, h]
    rfl
  · intro h
    rw [interpret_expression, h]
    rfl
  · intro h hv
    rw [interpret_expression, h]
    cases v with
    | boolean b =>
      cases b with
      | false => exact absurd rfl hv
      | true => rfl
    | number n => rfl
    | string s => rfl
    | tuple t => rfl


/-- Witness for C2 at concrete inputs. -/
theorem c2_or_and_short_circuit_witness :
    interpret_expression
      (.binary .or (.literal (.boolean true)) (.literal (.string "y")))
      emptyVars = .ok (.boolean true, emptyVars) ∧
    interpret_expression
      (.binary .or (.literal (.number 7)) (.literal (.string "y")))
      emptyVars = .ok (.string "y", emptyVars) ∧
    interpret_expression
      (.binary .and (.literal (.boolean false)) (.literal (.string "y")))
      emptyVars = .ok (.boolean false, emptyVars) ∧
    interpret_expression
      (.binary .and (.literal (.string "z")) (.literal (.string "y")))
      emptyVars = .ok (.string "y", emptyVars) := by
  refine ⟨?_, ?_, ?_, ?_⟩
  · exact (c2_or_and_short_circuit (.literal (.boolean true))
      (.literal (.string "y")) emptyVars emptyVars (.boolean true)).1 rfl
  · exact ((c2_or_and_short_circuit (.literal (.number 7))
      (.literal (.string "y")) emptyVars emptyVars (.number 7)).2.1 rfl
      (by simp)).trans rfl
  · exact (c2_or_and_short_circuit (.literal (.boolean false))
      (.literal (.string "y")) emptyVars emptyVars
      (.boolean false)).2.2.2.1 rfl
  · exact ((c2_or_and_short_circuit (.literal (.string "z"))
      (.literal (.string "y")) emptyVars emptyVars
      (.string "z")).2.2.2.2.1 rfl (by simp)).trans rfl


/-- C7: If evaluates the condition first; a non-Boolean condition value is a
fault; a true condition runs the then-branch only (the result does not
depend on the else-branch at all), a false condition runs the else-branch
when present and nothing otherwise. -/
theorem c7_if_selects_one_branch (c : Expression) (t e' : Statement)
    (eOpt : Option Statement) (fuel : Nat) (vs vs1 : Variables) (v : Value) :
    (interpret_expression c vs = .ok (.boolean true, vs1) →
      interpret_statement (fuel + 1) (.ifS c t eOpt) vs =
        interpret_statement fuel t vs1) ∧
    (interpret_expression c vs = .ok (.boolean false, vs1) →
      interpret_statement (fuel + 1) (.ifS c t (some e')) vs =
        interpret_statement fuel e' vs1) ∧
    (interpret_expression c vs = .ok (.boolean false, vs1) →
      interpret_statement (fuel + 1) (.ifS c t none) vs = .ok (vs1, [])) ∧
    (interpret_expression c vs = .ok (v, vs1) → (∀ b, v ≠ .boolean b) →
      interpret_statement (fuel + 1) (.ifS c t eOpt) vs =
        .fault .typeFault) := by
  refine ⟨?_, ?_, ?_, ?_⟩
  · intro h
    rw [interpret_statement, interpret_statement, interpStep, h]
    rfl
  · intro h
    rw [interpret_statement, interpret_statement, interpStep, h]
    rfl
  · intro h
    rw [interpret_statement, interpStep, h]
    rfl
  · intro h hv
    rw [interpret_statement, interpStep, h]
    cases v with
    | boolean b => exact absurd rfl (hv b)
    | number n => rfl
    | string s => rfl
    | tuple t => rfl


/-- Witness for C7 at concrete inputs. -/
theorem c7_if_selects_one_branch_witness :
    interpret_statement 2 (.ifS (.literal (.boolean true))
      (.expression (.literal (.number 1)))
      (some (.expression (.literal (.number 2))))) emptyVars =
      .ok (emptyVars, [.number 1]) ∧
    interpret_statement 2 (.ifS (.literal (.boolean false))
      (.expression (.literal (.number 1)))
      (some (.expression (.literal (.number 2))))) emptyVars =
      .ok (emptyVars, [.number 2]) ∧
    interpret_statement 2 (.ifS (.literal (.boolean false))
      (.expression (.literal (.number 1))) none) emptyVars =
      .ok (emptyVars, []) ∧
    interpret_statement 2 (.ifS (.literal (.number 0))
      (.expression (.literal (.number 1))) none) emptyVars =
      .fault .typeFault := by
  refine ⟨?_, ?_, ?_, ?_⟩
  · exact ((c7_if_selects_one_branch (.literal (.boolean true))
      (.expression (.literal (.number 1)))
      (.expression (.literal (.number 2)))
      (some (.expression (.literal (.number 2)))) 1 emptyVars emptyVars
      (.boolean true)).1 rfl).trans rfl
  · exact ((c7_if_selects_one_branch (.literal (.boolean false))
      (.expression (.literal (.number 1)))
      (.expression (.literal (.number 2)))
      (some (.expression (.literal (.number 2)))) 1 emptyVars emptyVars
      (.boolean false)).2.1 rfl).trans rfl
  · exact (c7_if_selects_one_branch (.literal (.boolean false))
      (.expression (.literal (.number 1)))
      (.expression (.literal (.number 2))) none 1 emptyVars emptyVars
      (.boolean false)).2.2.1 rfl
  · exact (c7_if_selects_one_branch (.literal (.number 0))
      (.expression (.literal (.number 1)))
      (.expression (.literal (.number 2))) none 1 emptyVars emptyVars
      (.number 0)).2.2.2 rfl (by simp)


/-- C8: While re-evaluates the condition before each iteration; a false
condition terminates the loop at once, a true condition runs the body and
loops back, and a non-Boolean condition value is a fault. The concrete
counter loop (i from 0 while i < 3, incrementing each iteration) runs its
body exactly 3 times — its print trace is 1, 2, 3 — and leaves i at the
terminal value 3. -/
theorem c8_while_loop (c : Expression) (b : Statement) (fuel : Nat)
    (vs vs1 : Variables) (v : Value) :
    (interpret_expression c vs = .ok (.boolean false, vs1) →
      interpret_statement (fuel + 1) (.whileS c b) vs = .ok (vs1, [])) ∧
    (interpret_expression c vs = .ok (.boolean true, vs1) →
      interpret_statement (fuel + 1) (.whileS c b) vs =
        Res.bind (interpret_statement fuel b vs1) fun q =>
        Res.bind (interpret_statement fuel (.whileS c b) q.1) fun r =>
          .ok (r.1, q.2 ++ r.2)) ∧
    (interpret_expression c vs = .ok (v, vs1) → (∀ b', v ≠ .boolean b') →
      interpret_statement (fuel + 1) (.whileS c b) vs =
        .fault .typeFault) ∧
    Res.bind (interpret 30 counterLoopProgram []) (fun p =>
        .ok (Env.find p.1 "i", p.2)) =
      .ok (some (.number 3),
        [.number 1, .number 2, .number 3, .number 3]) := by
  refine ⟨?_, ?_, ?_, by with_unfolding_all rfl⟩
  · intro h
    rw [interpret_statement, interpStep, h]
    rfl
  · intro h
    rw [interpret_statement, interpStep, h]
    rfl
  · intro h hv
    rw [interpret_statement, interpStep, h]
    cases v with
    | boolean b' => exact absurd rfl (hv b')
    | number n => rfl
    | string s => rfl
    | tuple t => rfl


/-- Witness for C8 at concrete inputs. -/
theorem c8_while_loop_witness :
    interpret_statement 1 (.whileS (.literal (.boolean false))
      (.expression (.literal (.number 1)))) emptyVars =
      .ok (emptyVars, []) ∧
    interpret_statement 1 (.whileS (.literal (.string "x"))
      (.expression (.literal (.number 1)))) emptyVars =
      .fault .typeFault ∧
    interpret_statement 2 (.whileS (.literal (.boolean true))
      (.expression (.literal (.number 1)))) emptyVars =
      Res.bind (interpret_statement 1
        (.expression (.literal (.number 1))) emptyVars) fun q =>
      Res.bind (interpret_statement 1 (.whileS (.literal (.boolean true))
        (.expression (.literal (.number 1)))) q.1) fun r =>
        .ok (r.1, q.2 ++ r.2) := by
  refine ⟨?_, ?_, ?_⟩
  · exact (c8_while_loop (.literal (.boolean false))
      (.expression (.literal (.number 1))) 0 emptyVars emptyVars
      (.boolean false)).1 rfl
  · exact (c8_while_loop (.literal (.string "x"))
      (.expression (.literal (.number 1))) 0 emptyVars emptyVars
      (.string "x")).2.2.1 rfl (by simp)
  · exact (c8_while_loop (.literal (.boolean true))
      (.expression (.literal (.number 1))) 1 emptyVars emptyVars
      (.boolean true)).2.1 rfl


theorem EnvAgree.reflEnv (A : List String) (m : Env) : EnvAgree A m m :=
  fun _ => ⟨by rfl, fun _ => by rfl⟩


theorem EnvAgree.transEnv {A : List String} {m₁ m₂ m₃ : Env}
    (h₁ : EnvAgree A m₁ m₂) (h₂ : EnvAgree A m₂ m₃) : EnvAgree A m₁ m₃ :=
  fun y => ⟨(h₁ y).1.trans (h₂ y).1,
    fun hy => ((h₁ y).2 hy).trans ((h₂ y).2 hy)⟩


theorem EnvAgree.monoEnv {A B : List String} {m m' : Env}
    (hAB : ∀ y, y ∈ A → y ∈ B) (h : EnvAgree A m m') : EnvAgree B m m' :=
  fun y => ⟨(h y).1, fun hy => (h y).2 (fun hmem => hy (hAB y hmem))⟩


theorem VarsAgree.reflVars (A : List String) (vs : Variables) : VarsAgree A vs vs :=
  ⟨EnvAgree.reflEnv A _, List.forall₂_same.mpr fun m _ => EnvAgree.reflEnv A m⟩


theorem forall₂_envAgree_trans {A : List String} :
    ∀ {l₁ l₂ l₃ : List Env}, List.Forall₂ (EnvAgree A) l₁ l₂ →
      List.Forall₂ (EnvAgree A) l₂ l₃ → List.Forall₂ (EnvAgree A) l₁ l₃
  | _, _, _, .nil, .nil => .nil
  | _, _, _, .cons h₁ t₁, .cons h₂ t₂ =>
    .cons (h₁.transEnv h₂) (forall₂_envAgree_trans t₁ t₂)


theorem VarsAgree.transVars {A : List String} {vs₁ vs₂ vs₃ : Variables}
    (h₁ : VarsAgree A vs₁ vs₂) (h₂ : VarsAgree A vs₂ vs₃) :
    VarsAgree A vs₁ vs₃ :=
  ⟨h₁.1.transEnv h₂.1, forall₂_envAgree_trans h₁.2 h₂.2⟩


theorem VarsAgree.monoVars {A B : List String} {vs vs' : Variables}
    (hAB : ∀ y, y ∈ A → y ∈ B) (h : VarsAgree A vs vs') :
    VarsAgree B vs vs' :=
  ⟨h.1.monoEnv hAB, h.2.imp fun _ _ hab => hab.monoEnv hAB⟩


theorem Env.find_insert (m : Env) (x y : String) (v : Value) :
    (m.insert x v).find y = if x = y then some v else m.find y := rfl


theorem EnvAgree.insert {A : List String} (m : Env) {x : String} (v : Value)
    (hx : (m.find x).isSome = true) (hA : x ∈ A) :
    EnvAgree A m (m.insert x v) := by
  intro y
  constructor
  · rw [Env.find_insert]
    by_cases hxy : x = y
    · subst hxy
      simp [hx]
    · simp [hxy]
  · intro hy
    rw [Env.find_insert]
    have hne : x ≠ y := fun h => hy (h ▸ hA)
    simp [hne]


theorem setEnvs_agree {x : String} {v : Value} :
    ∀ {envs envs' : List Env}, setEnvs envs x v = some envs' →
      List.Forall₂ (EnvAgree [x]) envs envs' := by
  intro envs
  induction envs with
  | nil =>
    intro envs' h
    rw [setEnvs] at h
    cases h
  | cons e rest ih =>
    intro envs' h
    rw [setEnvs] at h
    by_cases he : (e.find x).isSome
    · rw [if_pos he, Option.some_inj] at h
      subst h
      exact .cons (EnvAgree.insert e v he (List.mem_cons_self x []))
        (List.forall₂_same.mpr fun m _ => EnvAgree.reflEnv _ m)
    · rw [if_neg he] at h
      cases hrest : setEnvs rest x v with
      | some rest' =>
        rw [hrest, Option.some_inj] at h
        subst h
        exact .cons (EnvAgree.reflEnv _ e) (ih hrest)
      | none =>
        rw [hrest] at h
        cases h


theorem set_variable_agree {vs vs' : Variables} {x : String} {v : Value}
    (h : vs.set_variable x v = some vs') : VarsAgree [x] vs vs' := by
  rw [Variables.set_variable] at h
  cases henv : setEnvs vs.environments x v with
  | some envs' =>
    rw [henv, Option.some_inj] at h
    subst h
    exact ⟨EnvAgree.reflEnv _ _, setEnvs_agree henv⟩
  | none =>
    rw [henv] at h
    by_cases hg : (vs.global_variables.find x).isSome
    · rw [if_pos hg, Option.some_inj] at h
      subst h
      exact ⟨EnvAgree.insert _ v hg (List.mem_cons_self x []),
        List.forall₂_same.mpr fun m _ => EnvAgree.reflEnv _ m⟩
    · rw [if_neg hg] at h
      cases h


theorem setEnvs_none_iff {x : String} {v : Value} :
    ∀ {envs : List Env}, setEnvs envs x v = none ↔ lookupEnvs envs x = none := by
  intro envs
  induction envs with
  | nil => exact ⟨fun _ => rfl, fun _ => rfl⟩
  | cons e rest ih =>
    rw [setEnvs, lookupEnvs]
    by_cases he : (e.find x).isSome
    · rw [if_pos he]
      rcases Option.isSome_iff_exists.mp he with ⟨w, hw⟩
      rw [hw]
      simp
    · rw [if_neg he]
      rw [Option.not_isSome_iff_eq_none] at he
      rw [he, ← ih]
      cases setEnvs rest x v with
      | some rest' => simp
      | none => simp


theorem set_variable_none_iff {vs : Variables} {x : String} {v : Value} :
    vs.set_variable x v = none ↔ vs.get_variable x = none := by
  rw [Variables.set_variable, Variables.get_variable]
  cases henv : setEnvs vs.environments x v with
  | some envs' =>
    have hlook : lookupEnvs vs.environments x ≠ none := by
      intro hl
      rw [← setEnvs_none_iff (v := v)] at hl
      rw [hl] at henv
      cases henv
    cases hl : lookupEnvs vs.environments x with
    | some w => simp
    | none => exact absurd hl hlook
  | none =>
    rw [setEnvs_none_iff] at henv
    rw [henv]
    by_cases hg : (vs.global_variables.find x).isSome
    · rcases Option.isSome_iff_exists.mp hg with ⟨w, hw⟩
      simp [hg, hw]
    · rw [if_neg hg]
      rw [Option.not_isSome_iff_eq_none] at hg
      simp [hg]


theorem lookupEnvs_agree {A : List String} :
    ∀ {envs envs' : List Env}, List.Forall₂ (EnvAgree A) envs envs' →
      ∀ y, ((lookupEnvs envs y).isSome = (lookupEnvs envs' y).isSome) ∧
        (y ∉ A → lookupEnvs envs y = lookupEnvs envs' y) := by
  intro envs envs' h
  induction h with
  | nil => exact fun y => ⟨rfl, fun _ => rfl⟩
  | @cons e e' rest rest' he ht ih =>
    intro y
    rcases he y with ⟨hsome, hval⟩
    constructor
    · cases h1 : e.find y with
      | some w =>
        rw [h1] at hsome
        rcases Option.isSome_iff_exists.mp hsome.symm with ⟨w', hw'⟩
        simp [lookupEnvs, h1, hw']
      | none =>
        rw [h1] at hsome
        cases h2 : e'.find y with
        | some w' =>
          rw [h2] at hsome
          cases hsome
        | none =>
          simp only [lookupEnvs, h1, h2]
          exact (ih y).1
    · intro hy
      cases h1 : e'.find y with
      | some w => simp [lookupEnvs, hval hy, h1]
      | none =>
        simp only [lookupEnvs, hval hy, h1]
        exact (ih y).2 hy


theorem get_variable_agree {A : List String} {vs vs' : Variables}
    (h : VarsAgree A vs vs') (y : String) :
    ((vs.get_variable y).isSome = (vs'.get_variable y).isSome) ∧
      (y ∉ A → vs.get_variable y = vs'.get_variable y) := by
  rcases lookupEnvs_agree h.2 y with ⟨hsome, hval⟩
  rcases h.1 y with ⟨hgsome, hgval⟩
  constructor
  · cases h1 : lookupEnvs vs.environments y with
    | some w =>
      rw [h1] at hsome
      rcases Option.isSome_iff_exists.mp hsome.symm with ⟨w', hw'⟩
      simp [Variables.get_variable, h1, hw']
    | none =>
      rw [h1] at hsome
      cases h2 : lookupEnvs vs'.environments y with
      | some w' =>
        rw [h2] at hsome
        cases hsome
      | none =>
        simp only [Variables.get_variable, h1, h2]
        exact hgsome
  · intro hy
    cases h1 : lookupEnvs vs'.environments y with
    | some w => simp [Variables.get_variable, hval hy, h1]
    | none =>
      simp only [Variables.get_variable, hval hy, h1]
      exact hgval hy


/-- C4: reads search the innermost block table first, then outward, then the
global table, first match winning; writes to an existing name follow the
same order and touch only the table where the name is found. Concretely,
an inner declaration shadows the outer `x` for reads and writes inside the
block only, and the outer binding still holds 1 after the block exits. -/
theorem c4_lookup_order (g e : Env) (es : List Env) (x : String)
    (v w : Value) :
    (e.find x = some v →
      Variables.get_variable ⟨g, e :: es⟩ x = some v) ∧
    (e.find x = none →
      Variables.get_variable ⟨g, e :: es⟩ x =
        Variables.get_variable ⟨g, es⟩ x) ∧
    (lookupEnvs es x = none → Variables.get_variable ⟨g, es⟩ x = g.find x) ∧
    ((e.find x).isSome = true →
      Variables.set_variable ⟨g, e :: es⟩ x w =
        some ⟨g, e.insert x w :: es⟩) ∧
    (e.find x = none →
      Variables.set_variable ⟨g, e :: es⟩ x w =
        (Variables.set_variable ⟨g, es⟩ x w).map
          (fun vs' => ⟨vs'.global_variables, e :: vs'.environments⟩)) ∧
    Res.bind (interpret 20 shadowProgram []) (fun p =>
        .ok (Env.find p.1 "x", p.2)) =
      .ok (some (.number 1), [.number 2, .number 3, .number 1]) := by
  refine ⟨?_, ?_, ?_, ?_, ?_, rfl⟩
  · intro h
    simp [Variables.get_variable, lookupEnvs, h]
  · intro h
    simp [Variables.get_variable, lookupEnvs, h]
  · intro h
    simp [Variables.get_variable, h]
  · intro h
    simp [Variables.set_variable, setEnvs, h]
  · intro h
    have hns : ¬(e.find x).isSome = true := by
      rw [h]
      simp
    simp only [Variables.set_variable, setEnvs, if_neg hns]
    cases setEnvs es x w with
    | some rest' => simp
    | none =>
      by_cases hg : (g.find x).isSome
      · simp [hg]
      · simp [hg]


/-- Witness for C4 at concrete inputs. -/
theorem c4_lookup_order_witness :
    Variables.get_variable ⟨[("x", .number 1)], [[("x", .number 2)]]⟩ "x" =
      some (.number 2) ∧
    Variables.get_variable ⟨[("x", .number 1)], [[("y", .number 5)]]⟩ "x" =
      Variables.get_variable ⟨[("x", .number 1)], []⟩ "x" ∧
    Variables.get_variable ⟨[("x", .number 1)], []⟩ "x" =
      some (.number 1) ∧
    Variables.set_variable ⟨[("x", .number 1)], [[("x", .number 2)]]⟩ "x"
      (.number 3) =
      some ⟨[("x", .number 1)], [[("x", .number 3), ("x", .number 2)]]⟩ := by
  refine ⟨?_, ?_, ?_, ?_⟩
  · exact (c4_lookup_order [("x", .number 1)] [("x", .number 2)] [] "x"
      (.number 2) (.number 0)).1 rfl
  · exact (c4_lookup_order [("x", .number 1)] [("y", .number 5)] [] "x"
      (.number 2) (.number 0)).2.1 rfl
  · exact (c4_lookup_order [("x", .number 1)] [] [] "x"
      (.number 2) (.number 0)).2.2.1 rfl
  · exact (c4_lookup_order [("x", .number 1)] [("x", .number 2)] [] "x"
      (.number 2) (.number 3)).2.2.2.1 rfl


/-- C5: reading an unbound variable is an undefined-variable fault;
assigning to a variable with no binding in any table (block or global) is
an undefined-variable fault after the right-hand side has been evaluated;
and a successful assignment never creates or removes a binding in any
table, at any scope depth. -/
theorem c5_undefined_variable_faults (x : String) (rhs : Expression)
    (vs vs1 vs2 : Variables) (w : Value) :
    (vs.get_variable x = none →
      interpret_expression (.variable x) vs = .fault .undefinedVariable) ∧
    (vs.get_variable x = none → vs.set_variable x w = none) ∧
    (interpret_expression rhs vs = .ok (w, vs1) →
      vs1.get_variable x = none →
      interpret_expression (.binary .assignment (.variable x) rhs) vs =
        .fault .undefinedVariable) ∧
    (vs.set_variable x w = some vs2 →
      ∀ y, (vs2.get_variable y).isSome = (vs.get_variable y).isSome) := by
  refine ⟨?_, ?_, ?_, ?_⟩
  · intro h
    rw [interpret_expression, h]
  · intro h
    exact set_variable_none_iff.mpr h
  · intro hrhs hx
    rw [interpret_expression, hrhs]
    have : vs1.set_variable x w = none := set_variable_none_iff.mpr hx
    simp only [Res.bind_ok]
    rw [this]
  · intro h y
    exact ((get_variable_agree (set_variable_agree h) y).1).symm


/-- Witness for C5 at concrete inputs. -/
theorem c5_undefined_variable_faults_witness :
    interpret_expression (.variable "x") emptyVars =
      .fault .undefinedVariable ∧
    Variables.set_variable emptyVars "x" (.number 1) = none ∧
    interpret_expression
      (.binary .assignment (.variable "x") (.literal (.number 1)))
      emptyVars = .fault .undefinedVariable ∧
    (Variables.get_variable
      ⟨[("x", .number 2)], []⟩ "y").isSome = false := by
  refine ⟨?_, ?_, ?_, ?_⟩
  · exact (c5_undefined_variable_faults "x" (.literal (.number 1))
      emptyVars emptyVars emptyVars (.number 1)).1 rfl
  · exact (c5_undefined_variable_faults "x" (.literal (.number 1))
      emptyVars emptyVars emptyVars (.number 1)).2.1 rfl
  · exact (c5_undefined_variable_faults "x" (.literal (.number 1))
      emptyVars emptyVars emptyVars (.number 1)).2.2.1 rfl rfl
  · exact ((c5_undefined_variable_faults "x" (.literal (.number 1))
      ⟨[("x", .number 2)], []⟩ emptyVars
      ⟨[("x", .number 3), ("x", .number 2)], []⟩ (.number 3)).2.2.2
      rfl "y").trans rfl


theorem collectChain_fst : ∀ (e : Expression) (l : List Nat),
    (collectChain e l).1 = chainRoot e
  | .unary _ _, _ => rfl
  | .binary _ _ _, _ => rfl
  | .variable _, _ => rfl
  | .literal _, _ => rfl
  | .grouping _, _ => rfl
  | .tuple _, _ => rfl
  | .tupleAccess inner i, l => collectChain_fst inner (l.concat i)


theorem assignToChain_nonvar (root : Expression) (indices : List Nat)
    (value : Value) (vs : Variables) (be : Res (Value × Variables))
    (h : isVariableExpr root = false) :
    assignToChain root indices value vs be =
      Res.bind be fun p => .ok (value, p.2) :=
  match root, h with
  | .unary _ _, _ => rfl
  | .binary _ _ _, _ => rfl
  | .literal _, _ => rfl
  | .grouping _, _ => rfl
  | .tuple _, _ => rfl
  | .tupleAccess _ _, _ => rfl
  | .variable _, h => nomatch h


theorem Res.bind_congr {α β : Type} {r : Res α} {f g : α → Res β}
    (h : ∀ a, f a = g a) : Res.bind r f = Res.bind r g := by
  cases r with
  | ok a => exact h a
  | fault e => rfl
  | timeout => rfl


/-- C1 counterexample (closed): assigning through a bare literal target
faults with a type fault instead of returning the right-hand value. -/
theorem c1_counterexample :
    interpret_expression
      (.binary .assignment (.literal (.number 1)) (.literal (.number 2)))
      emptyVars = .fault .typeFault ∧
    Res.fault .typeFault ≠
      (.ok (.number 2, emptyVars) : Res (Value × Variables)) :=
  ⟨rfl, by simp⟩


/-- C1 (amended): only an Assignment whose target is a TupleAccess chain
rooted at a non-Variable expression is silently discarded — the right-hand
side is evaluated, then the outermost access's base sub-expression is
evaluated once for its side effects, no binding is updated beyond those
evaluations, and the right-hand value is returned. An Assignment whose
target is neither a Variable nor a TupleAccess (e.g. a bare literal or
grouping) evaluates the right-hand side and then faults. -/
theorem c1_nonlvalue_assignment (base rhs lhs : Expression) (idx : Nat)
    (vs : Variables) :
    (isVariableExpr (chainRoot base) = false →
      interpret_expression (.binary .assignment (.tupleAccess base idx) rhs)
        vs =
        Res.bind (interpret_expression rhs vs) fun p =>
        Res.bind (interpret_expression base p.2) fun q => .ok (p.1, q.2)) ∧
    (isLvalueShape lhs = false →
      interpret_expression (.binary .assignment lhs rhs) vs =
        Res.bind (interpret_expression rhs vs) fun _ =>
          .fault .typeFault) := by
  constructor
  · intro h
    rw [interpret_expression]
    refine Res.bind_congr fun p => ?_
    rcases hcc : collectChain base [idx] with ⟨root, indices⟩
    have hroot : isVariableExpr root = false := by
      have hfst := collectChain_fst base [idx]
      rw [hcc] at hfst
      rw [show root = chainRoot base from hfst]
      exact h
    simp only [hcc]
    exact assignToChain_nonvar root indices p.1 p.2 _ hroot
  · intro h
    rw [interpret_expression]
    refine Res.bind_congr fun p => ?_
    exact match lhs, h with
      | .unary _ _, _ => rfl
      | .binary _ _ _, _ => rfl
      | .literal _, _ => rfl
      | .grouping _, _ => rfl
      | .tuple _, _ => rfl
      | .variable _, h => nomatch h
      | .tupleAccess _ _, h => nomatch h


/-- Witness for C1 (amended) at concrete inputs. -/
theorem c1_nonlvalue_assignment_witness :
    interpret_expression
      (.binary .assignment
        (.tupleAccess (.literal (.tuple [.number 1])) 0)
        (.literal (.number 2)))
      emptyVars = .ok (.number 2, emptyVars) ∧
    interpret_expression
      (.binary .assignment (.grouping (.variable "x"))
        (.literal (.number 2)))
      emptyVars = .fault .typeFault := by
  constructor
  · exact ((c1_nonlvalue_assignment (.literal (.tuple [.number 1]))
      (.literal (.number 2)) (.literal (.number 0)) 0 emptyVars).1
      rfl).trans rfl
  · exact ((c1_nonlvalue_assignment (.literal (.tuple [.number 1]))
      (.literal (.number 2)) (.grouping (.variable "x")) 0 emptyVars).2
      rfl).trans rfl


theorem collectChain_var (x : String) (l : List Nat) :
    collectChain (.variable x) l = (.variable x, l) := rfl


theorem collectChain_foldl : ∀ (path : List Nat) (e : Expression)
    (acc : List Nat),
    collectChain (path.foldl (fun e' i => Expression.tupleAccess e' i) e)
      acc = collectChain e (acc ++ path.reverse)
  | [], e, acc => by simp
  | i :: rest, e, acc => by
    rw [List.foldl_cons,
      collectChain_foldl rest (.tupleAccess e i) acc, collectChain]
    congr 1
    simp [List.concat_eq_append]


theorem setPath_ok_getPath : ∀ (p : List Nat) (v w v' : Value),
    setPath v p w = .ok v' → getPath v' p = some w
  | [], v, w, v', h => by
    rw [setPath] at h
    obtain rfl : w = v' := by
      injection h
    rfl
  | i :: rest, v, w, v', h => by
    cases v with
    | number n => exact Res.noConfusion h
    | string str => exact Res.noConfusion h
    | boolean b => exact Res.noConfusion h
    | tuple values => ?_
    rw [setPath] at h
    by_cases hlen : i < values.length
    · rw [dif_pos hlen] at h
      cases hsp : setPath (values.get ⟨i, hlen⟩) rest w with
      | ok w₁ =>
        rw [hsp] at h
        obtain rfl : Value.tuple (values.set i w₁) = v' := by
          injection h
        rw [getPath]
        have hlen' : i < (values.set i w₁).length := by
          rw [List.length_set]
          exact hlen
        rw [dif_pos hlen']
        have : (values.set i w₁).get ⟨i, hlen'⟩ = w₁ :=
          List.getElem_set_self hlen'
        rw [this]
        exact setPath_ok_getPath rest (values.get ⟨i, hlen⟩) w w₁ hsp
      | fault e =>
        rw [hsp] at h
        cases h
      | timeout =>
        rw [hsp] at h
        cases h
    · rw [dif_neg hlen] at h
      cases h


theorem setPath_frame : ∀ (p : List Nat) (v w v' : Value) (q : List Nat),
    setPath v p w = .ok v' → ¬(p <+: q) → ¬(q <+: p) →
      getPath v' q = getPath v q
  | [], v, w, v', q, h, hpq, hqp => absurd List.nil_prefix hpq
  | i :: rest, v, w, v', q, h, hpq, hqp => by
    cases v with
    | number n => exact Res.noConfusion h
    | string str => exact Res.noConfusion h
    | boolean b => exact Res.noConfusion h
    | tuple values => ?_
    rw [setPath] at h
    by_cases hlen : i < values.length
    · rw [dif_pos hlen] at h
      cases hsp : setPath (values.get ⟨i, hlen⟩) rest w with
      | ok w₁ =>
        rw [hsp] at h
        obtain rfl : Value.tuple (values.set i w₁) = v' := by
          injection h
        cases q with
        | nil => exact absurd List.nil_prefix hqp
        | cons j qrest =>
          rw [getPath, getPath]
          have hlenset : (values.set i w₁).length = values.length :=
            List.length_set values i w₁
          by_cases hj : j < values.length
          · have hj' : j < (values.set i w₁).length := by
              rw [hlenset]
              exact hj
            rw [dif_pos hj', dif_pos hj]
            by_cases hij : i = j
            · subst hij
              have hget : (values.set i w₁).get ⟨i, hj'⟩ = w₁ :=
                List.getElem_set_self hj'
              rw [hget]
              have hrq : ¬(rest <+: qrest) := fun hc =>
                hpq (List.cons_prefix_cons.mpr ⟨rfl, hc⟩)
              have hqr : ¬(qrest <+: rest) := fun hc =>
                hqp (List.cons_prefix_cons.mpr ⟨rfl, hc⟩)
              have : values.get ⟨i, hj⟩ = values.get ⟨i, hlen⟩ := rfl
              rw [this]
              exact setPath_frame rest (values.get ⟨i, hlen⟩) w w₁ qrest
                hsp hrq hqr
            · have hget : (values.set i w₁).get ⟨j, hj'⟩ =
                  values.get ⟨j, hj⟩ :=
                List.getElem_set_ne hij hj'
              rw [hget]
          · have hj' : ¬ j < (values.set i w₁).length := by
              rw [hlenset]
              exact hj
            rw [dif_neg hj', dif_neg hj]
      | fault e =>
        rw [hsp] at h
        cases h
      | timeout =>
        rw [hsp] at h
        cases h
    · rw [dif_neg hlen] at h
      cases h


theorem eval_assign_tupleAccess (base rhs : Expression) (idx : Nat)
    (vs : Variables) :
    interpret_expression (.binary .assignment (.tupleAccess base idx) rhs)
      vs =
      Res.bind (interpret_expression rhs vs) fun p =>
        match collectChain base [idx] with
        | (root, indices) =>
          assignToChain root indices p.1 p.2
            (interpret_expression base p.2) := by
  rw [interpret_expression]


/-- C3: assigning through a TupleAccess chain rooted at a Variable
evaluates the right-hand side, copies the root variable's current value,
rewrites exactly the element addressed by the root-to-leaf index path
(every element off that path reads back unchanged), stores the whole
rewritten value back into the variable's binding, and returns the
right-hand value. Concretely, with `t = (1, (2, 3))`, assigning 99 to the
second element of the inner tuple then reading `t` yields `(1, (2, 99))`. -/
theorem c3_tuple_chain_assignment (x : String) (path : List Nat) (i : Nat)
    (rhs : Expression) (vs vs1 vs2 : Variables) (w tv tv' : Value)
    (q : List Nat) :
    (interpret_expression rhs vs = .ok (w, vs1) →
      vs1.get_variable x = some tv →
      setPath tv (path ++ [i]) w = .ok tv' →
      vs1.set_variable x tv' = some vs2 →
      interpret_expression
        (.binary .assignment (lvalueChain x (path ++ [i])) rhs) vs =
        .ok (w, vs2)) ∧
    (setPath tv (path ++ [i]) w = .ok tv' →
      getPath tv' (path ++ [i]) = some w) ∧
    (setPath tv (path ++ [i]) w = .ok tv' → ¬((path ++ [i]) <+: q) →
      ¬(q <+: (path ++ [i])) → getPath tv' q = getPath tv q) ∧
    Res.bind (interpret 10 tupleMutationProgram []) (fun p =>
        .ok (Env.find p.1 "t", p.2)) =
      .ok (some (.tuple [.number 1, .tuple [.number 2, .number 99]]),
        [.number 99,
         .tuple [.number 1, .tuple [.number 2, .number 99]]]) := by
  refine ⟨?_, fun h => setPath_ok_getPath _ tv w tv' h,
    fun h hpq hqp => setPath_frame _ tv w tv' q h hpq hqp, rfl⟩
  intro h1 h2 h3 h4
  have hl : lvalueChain x (path ++ [i]) =
      .tupleAccess (lvalueChain x path) i := by
    rw [lvalueChain, List.foldl_append]
    rfl
  have hcc : collectChain (lvalueChain x path) [i] =
      (.variable x, [i] ++ path.reverse) := by
    rw [lvalueChain, collectChain_foldl, collectChain_var]
  have hrev : ([i] ++ path.reverse).reverse = path ++ [i] := by
    simp
  rw [hl, eval_assign_tupleAccess, h1]
  simp only [Res.bind_ok, hcc, assignToChain, h2, hrev, h3, h4]


/-- Witness for C3 at concrete inputs: `t = (1, (2, 3))`, assign 99 at
path [1, 1], read back the target and the untouched first element. -/
theorem c3_tuple_chain_assignment_witness :
    interpret_expression
      (.binary .assignment (lvalueChain "t" ([1] ++ [1]))
        (.literal (.number 99)))
      ⟨[("t", .tuple [.number 1, .tuple [.number 2, .number 3]])], []⟩ =
      .ok (.number 99,
        ⟨[("t", .tuple [.number 1, .tuple [.number 2, .number 99]]),
          ("t", .tuple [.number 1, .tuple [.number 2, .number 3]])],
         []⟩) ∧
    getPath (.tuple [.number 1, .tuple [.number 2, .number 99]])
      ([1] ++ [1]) = some (.number 99) ∧
    getPath (.tuple [.number 1, .tuple [.number 2, .number 99]]) [0] =
      getPath (.tuple [.number 1, .tuple [.number 2, .number 3]]) [0] := by
  have h := c3_tuple_chain_assignment "t" [1] 1 (.literal (.number 99))
    ⟨[("t", .tuple [.number 1, .tuple [.number 2, .number 3]])], []⟩
    ⟨[("t", .tuple [.number 1, .tuple [.number 2, .number 3]])], []⟩
    ⟨[("t", .tuple [.number 1, .tuple [.number 2, .number 99]]),
      ("t", .tuple [.number 1, .tuple [.number 2, .number 3]])], []⟩
    (.number 99)
    (.tuple [.number 1, .tuple [.number 2, .number 3]])
    (.tuple [.number 1, .tuple [.number 2, .number 99]])
    [0]
  exact ⟨h.1 rfl rfl rfl rfl, h.2.1 rfl,
    h.2.2.1 rfl (by decide) (by decide)⟩


theorem Res.bind_eq_ok {α β : Type} {r : Res α} {f : α → Res β} {b : β}
    (h : Res.bind r f = .ok b) : ∃ a, r = .ok a ∧ f a = .ok b := by
  cases r with
  | ok a => exact ⟨a, rfl, h⟩
  | fault e => cases h
  | timeout => cases h


mutual

theorem assignmentFree_pure : ∀ (e : Expression) (vs : Variables)
    (v : Value) (vs' : Variables), assignmentFree e = true →
    interpret_expression e vs = .ok (v, vs') → vs' = vs
  | .unary .minus inner, vs, v, vs', hfree, h => by
    rw [assignmentFree] at hfree
    rw [interpret_expression] at h
    obtain ⟨⟨v1, w1⟩, hl, h⟩ := Res.bind_eq_ok h
    dsimp only at h
    have e1 : w1 = vs := assignmentFree_pure inner vs v1 w1 hfree hl
    cases v1 <;> first
      | (injection h with hp; injection hp with h1 h2;
         rw [← h2]; exact e1)
      | exact Res.noConfusion h
  | .unary .not inner, vs, v, vs', hfree, h => by
    rw [assignmentFree] at hfree
    rw [interpret_expression] at h
    obtain ⟨⟨v1, w1⟩, hl, h⟩ := Res.bind_eq_ok h
    dsimp only at h
    have e1 : w1 = vs := assignmentFree_pure inner vs v1 w1 hfree hl
    cases v1 <;> first
      | (injection h with hp; injection hp with h1 h2;
         rw [← h2]; exact e1)
      | exact Res.noConfusion h
  | .binary .add l r, vs, v, vs', hfree, h => by
    rw [assignmentFree, Bool.and_eq_true] at hfree
    rw [interpret_expression] at h
    obtain ⟨⟨v1, w1⟩, hl, h⟩ := Res.bind_eq_ok h
    dsimp only at h
    obtain ⟨⟨v2, w2⟩, hr, h⟩ := Res.bind_eq_ok h
    dsimp only at h
    have e1 : w1 = vs := assignmentFree_pure l vs v1 w1 hfree.1 hl
    have e2 : w2 = w1 := assignmentFree_pure r w1 v2 w2 hfree.2 hr
    cases v1 <;> cases v2 <;> first
      | (injection h with hp; injection hp with h1 h2;
         rw [← h2]; exact e2.trans e1)
      | exact Res.noConfusion h
  | .binary .subtract l r, vs, v, vs', hfree, h => by
    rw [assignmentFree, Bool.and_eq_true] at hfree
    rw [interpret_expression] at h
    obtain ⟨⟨v1, w1⟩, hl, h⟩ := Res.bind_eq_ok h
    dsimp only at h
    obtain ⟨⟨v2, w2⟩, hr, h⟩ := Res.bind_eq_ok h
    dsimp only at h
    have e1 : w1 = vs := assignmentFree_pure l vs v1 w1 hfree.1 hl
    have e2 : w2 = w1 := assignmentFree_pure r w1 v2 w2 hfree.2 hr
    cases v1 <;> cases v2 <;> first
      | (injection h with hp; injection hp with h1 h2;
         rw [← h2]; exact e2.trans e1)
      | exact Res.noConfusion h
  | .binary .multiply l r, vs, v, vs', hfree, h => by
    rw [assignmentFree, Bool.and_eq_true] at hfree
    rw [interpret_expression] at h
    obtain ⟨⟨v1, w1⟩, hl, h⟩ := Res.bind_eq_ok h
    dsimp only at h
    obtain ⟨⟨v2, w2⟩, hr, h⟩ := Res.bind_eq_ok h
    dsimp only at h
    have e1 : w1 = vs := assignmentFree_pure l vs v1 w1 hfree.1 hl
    have e2 : w2 = w1 := assignmentFree_pure r w1 v2 w2 hfree.2 hr
    cases v1 <;> cases v2 <;> first
      | (injection h with hp; injection hp with h1 h2;
         rw [← h2]; exact e2.trans e1)
      | exact Res.noConfusion h
  | .binary .divide l r, vs, v, vs', hfree, h => by
    rw [assignmentFree, Bool.and_eq_true] at hfree
    rw [interpret_expression] at h
    obtain ⟨⟨v1, w1⟩, hl, h⟩ := Res.bind_eq_ok h
    dsimp only at h
    obtain ⟨⟨v2, w2⟩, hr, h⟩ := Res.bind_eq_ok h
    dsimp only at h
    have e1 : w1 = vs := assignmentFree_pure l vs v1 w1 hfree.1 hl
    have e2 : w2 = w1 := assignmentFree_pure r w1 v2 w2 hfree.2 hr
    cases v1 <;> cases v2 <;> first
      | (injection h with hp; injection hp with h1 h2;
         rw [← h2]; exact e2.trans e1)
      | exact Res.noConfusion h
  | .binary .equal l r, vs, v, vs', hfree, h => by
    rw [assignmentFree, Bool.and_eq_true] at hfree
    rw [interpret_expression] at h
    obtain ⟨⟨v1, w1⟩, hl, h⟩ := Res.bind_eq_ok h
    dsimp only at h
    obtain ⟨⟨v2, w2⟩, hr, h⟩ := Res.bind_eq_ok h
    dsimp only at h
    have e1 : w1 = vs := assignmentFree_pure l vs v1 w1 hfree.1 hl
    have e2 : w2 = w1 := assignmentFree_pure r w1 v2 w2 hfree.2 hr
    cases v1 <;> cases v2 <;> first
      | (injection h with hp; injection hp with h1 h2;
         rw [← h2]; exact e2.trans e1)
      | exact Res.noConfusion h
  | .binary .notEqual l r, vs, v, vs', hfree, h => by
    rw [assignmentFree, Bool.and_eq_true] at hfree
    rw [interpret_expression] at h
    obtain ⟨⟨v1, w1⟩, hl, h⟩ := Res.bind_eq_ok h
    dsimp only at h
    obtain ⟨⟨v2, w2⟩, hr, h⟩ := Res.bind_eq_ok h
    dsimp only at h
    have e1 : w1 = vs := assignmentFree_pure l vs v1 w1 hfree.1 hl
    have e2 : w2 = w1 := assignmentFree_pure r w1 v2 w2 hfree.2 hr
    cases v1 <;> cases v2 <;> first
      | (injection h with hp; injection hp with h1 h2;
         rw [← h2]; exact e2.trans e1)
      | exact Res.noConfusion h
  | .binary .less l r, vs, v, vs', hfree, h => by
    rw [assignmentFree, Bool.and_eq_true] at hfree
    rw [interpret_expression] at h
    obtain ⟨⟨v1, w1⟩, hl, h⟩ := Res.bind_eq_ok h
    dsimp only at h
    obtain ⟨⟨v2, w2⟩, hr, h⟩ := Res.bind_eq_ok h
    dsimp only at h
    have e1 : w1 = vs := assignmentFree_pure l vs v1 w1 hfree.1 hl
    have e2 : w2 = w1 := assignmentFree_pure r w1 v2 w2 hfree.2 hr
    cases v1 <;> cases v2 <;> first
      | (injection h with hp; injection hp with h1 h2;
         rw [← h2]; exact e2.trans e1)
      | exact Res.noConfusion h
  | .binary .lessEqual l r, vs, v, vs', hfree, h => by
    rw [assignmentFree, Bool.and_eq_true] at hfree
    rw [interpret_expression] at h
    obtain ⟨⟨v1, w1⟩, hl, h⟩ := Res.bind_eq_ok h
    dsimp only at h
    obtain ⟨⟨v2, w2⟩, hr, h⟩ := Res.bind_eq_ok h
    dsimp only at h
    have e1 : w1 = vs := assignmentFree_pure l vs v1 w1 hfree.1 hl
    have e2 : w2 = w1 := assignmentFree_pure r w1 v2 w2 hfree.2 hr
    cases v1 <;> cases v2 <;> first
      | (injection h with hp; injection hp with h1 h2;
         rw [← h2]; exact e2.trans e1)
      | exact Res.noConfusion h
  | .binary .greater l r, vs, v, vs', hfree, h => by
    rw [assignmentFree, Bool.and_eq_true] at hfree
    rw [interpret_expression] at h
    obtain ⟨⟨v1, w1⟩, hl, h⟩ := Res.bind_eq_ok h
    dsimp only at h
    obtain ⟨⟨v2, w2⟩, hr, h⟩ := Res.bind_eq_ok h
    dsimp only at h
    have e1 : w1 = vs := assignmentFree_pure l vs v1 w1 hfree.1 hl
    have e2 : w2 = w1 := assignmentFree_pure r w1 v2 w2 hfree.2 hr
    cases v1 <;> cases v2 <;> first
      | (injection h with hp; injection hp with h1 h2;
         rw [← h2]; exact e2.trans e1)
      | exact Res.noConfusion h
  | .binary .greaterEqual l r, vs, v, vs', hfree, h => by
    rw [assignmentFree, Bool.and_eq_true] at hfree
    rw [interpret_expression] at h
    obtain ⟨⟨v1, w1⟩, hl, h⟩ := Res.bind_eq_ok h
    dsimp only at h
    obtain ⟨⟨v2, w2⟩, hr, h⟩ := Res.bind_eq_ok h
    dsimp only at h
    have e1 : w1 = vs := assignmentFree_pure l vs v1 w1 hfree.1 hl
    have e2 : w2 = w1 := assignmentFree_pure r w1 v2 w2 hfree.2 hr
    cases v1 <;> cases v2 <;> first
      | (injection h with hp; injection hp with h1 h2;
         rw [← h2]; exact e2.trans e1)
      | exact Res.noConfusion h
  | .binary .or l r, vs, v, vs', hfree, h => by
    rw [assignmentFree, Bool.and_eq_true] at hfree
    rw [interpret_expression] at h
    obtain ⟨⟨v1, w1⟩, hl, h⟩ := Res.bind_eq_ok h
    dsimp only at h
    have e1 : w1 = vs := assignmentFree_pure l vs v1 w1 hfree.1 hl
    cases v1 with
    | boolean b =>
      cases b with
      | true =>
        injection h with hp
        injection hp with h1 h2
        rw [← h2]
        exact e1
      | false => exact (assignmentFree_pure r w1 v vs' hfree.2 h).trans e1
    | number n => exact (assignmentFree_pure r w1 v vs' hfree.2 h).trans e1
    | string s => exact (assignmentFree_pure r w1 v vs' hfree.2 h).trans e1
    | tuple t => exact (assignmentFree_pure r w1 v vs' hfree.2 h).trans e1
  | .binary .and l r, vs, v, vs', hfree, h => by
    rw [assignmentFree, Bool.and_eq_true] at hfree
    rw [interpret_expression] at h
    obtain ⟨⟨v1, w1⟩, hl, h⟩ := Res.bind_eq_ok h
    dsimp only at h
    have e1 : w1 = vs := assignmentFree_pure l vs v1 w1 hfree.1 hl
    cases v1 with
    | boolean b =>
      cases b with
      | false =>
        injection h with hp
        injection hp with h1 h2
        rw [← h2]
        exact e1
      | true => exact (assignmentFree_pure r w1 v vs' hfree.2 h).trans e1
    | number n => exact (assignmentFree_pure r w1 v vs' hfree.2 h).trans e1
    | string s => exact (assignmentFree_pure r w1 v vs' hfree.2 h).trans e1
    | tuple t => exact (assignmentFree_pure r w1 v vs' hfree.2 h).trans e1
  | .binary .assignment l r, vs, v, vs', hfree, h => by
    rw [assignmentFree] at hfree
    cases hfree
  | .variable x, vs, v, vs', hfree, h => by
    rw [interpret_expression] at h
    cases hg : vs.get_variable x with
    | some w =>
      rw [hg] at h
      injection h with hp
      injection hp with h1 h2
      exact h2.symm
    | none =>
      rw [hg] at h
      exact Res.noConfusion h
  | .literal lv, vs, v, vs', hfree, h => by
    rw [interpret_expression] at h
    injection h with hp
    injection hp with h1 h2
    exact h2.symm
  | .grouping inner, vs, v, vs', hfree, h => by
    rw [assignmentFree] at hfree
    rw [interpret_expression] at h
    exact assignmentFree_pure inner vs v vs' hfree h
  | .tuple es, vs, v, vs', hfree, h => by
    rw [assignmentFree] at hfree
    rw [interpret_expression] at h
    obtain ⟨⟨lv1, w1⟩, hl, h⟩ := Res.bind_eq_ok h
    dsimp only at h
    have e1 : w1 = vs := assignmentFreeList_pure es vs lv1 w1 hfree hl
    injection h with hp
    injection hp with h1 h2
    rw [← h2]
    exact e1
  | .tupleAccess inner idx, vs, v, vs', hfree, h => by
    rw [assignmentFree] at hfree
    rw [interpret_expression] at h
    obtain ⟨⟨v1, w1⟩, hl, h⟩ := Res.bind_eq_ok h
    dsimp only at h
    have e1 : w1 = vs := assignmentFree_pure inner vs v1 w1 hfree hl
    cases v1 with
    | tuple values =>
      dsimp only at h
      by_cases hlen : idx < values.length
      · rw [dif_pos hlen] at h
        injection h with hp
        injection hp with h1 h2
        rw [← h2]
        exact e1
      · rw [dif_neg hlen] at h
        exact Res.noConfusion h
    | number n => exact Res.noConfusion h
    | string s => exact Res.noConfusion h
    | boolean b => exact Res.noConfusion h

theorem assignmentFreeList_pure : ∀ (es : List Expression) (vs : Variables)
    (lv : List Value) (vs' : Variables), assignmentFreeList es = true →
    interpret_expressions es vs = .ok (lv, vs') → vs' = vs
  | [], vs, lv, vs', hfree, h => by
    rw [interpret_expressions] at h
    injection h with hp
    injection hp with h1 h2
    exact h2.symm
  | e :: rest, vs, lv, vs', hfree, h => by
    rw [assignmentFreeList, Bool.and_eq_true] at hfree
    rw [interpret_expressions] at h
    obtain ⟨⟨v1, w1⟩, h1, h⟩ := Res.bind_eq_ok h
    dsimp only at h
    obtain ⟨⟨lv2, w2⟩, h2, h⟩ := Res.bind_eq_ok h
    dsimp only at h
    have e1 : w1 = vs := assignmentFree_pure e vs v1 w1 hfree.1 h1
    have e2 : w2 = w1 := assignmentFreeList_pure rest w1 lv2 w2 hfree.2 h2
    injection h with hp
    injection hp with ha hb
    rw [← hb]
    exact e2.trans e1

end

/-- C10: evaluating any expression that contains no Assignment operator
leaves the scope stack exactly unchanged — the global table and every
block-local table are the same after evaluation as before; only the
Assignment branch of evaluation ever writes to the scope stack. -/
theorem c10_assignment_free_pure (e : Expression) (vs : Variables)
    (v : Value) (vs' : Variables) :
    assignmentFree e = true → interpret_expression e vs = .ok (v, vs') →
      vs' = vs ∧ vs'.global_variables = vs.global_variables ∧
      vs'.environments = vs.environments := by
  intro hf h
  have hs := assignmentFree_pure e vs v vs' hf h
  exact ⟨hs, by rw [hs], by rw [hs]⟩


/-- Witness for C10 at a concrete input: a read plus arithmetic-free
operators over a populated scope stack change nothing. -/
theorem c10_assignment_free_pure_witness :
    assignmentFree (.binary .or (.variable "x")
      (.tupleAccess (.variable "t") 0)) = true ∧
    interpret_expression (.binary .or (.variable "x")
        (.tupleAccess (.variable "t") 0))
      ⟨[("x", .boolean false)], [[("t", .tuple [.number 7])]]⟩ =
      .ok (.number 7,
        ⟨[("x", .boolean false)], [[("t", .tuple [.number 7])]]⟩) ∧
    (⟨[("x", .boolean false)], [[("t", .tuple [.number 7])]]⟩ : Variables)
      = ⟨[("x", .boolean false)], [[("t", .tuple [.number 7])]]⟩ :=
  ⟨rfl, rfl,
    (c10_assignment_free_pure
      (.binary .or (.variable "x") (.tupleAccess (.variable "t") 0))
      ⟨[("x", .boolean false)], [[("t", .tuple [.number 7])]]⟩
      (.number 7)
      ⟨[("x", .boolean false)], [[("t", .tuple [.number 7])]]⟩
      rfl rfl).1⟩


theorem forall₂_tail {R : Env → Env → Prop} {l l' : List Env}
    (h : List.Forall₂ R l l') : List.Forall₂ R l.tail l'.tail := by
  cases h with
  | nil => exact .nil
  | cons hh ht => exact ht


theorem StmtAgree.reflStmt (A : List String) (vs : Variables) :
    StmtAgree A vs vs :=
  ⟨by rfl, List.forall₂_same.mpr fun m _ => EnvAgree.reflEnv A m,
    fun _ => EnvAgree.reflEnv A _⟩


theorem StmtAgree.transStmt {A : List String} {vs₁ vs₂ vs₃ : Variables}
    (h₁ : StmtAgree A vs₁ vs₂) (h₂ : StmtAgree A vs₂ vs₃) :
    StmtAgree A vs₁ vs₃ := by
  refine ⟨h₂.1.trans h₁.1, forall₂_envAgree_trans h₁.2.1 h₂.2.1, ?_⟩
  intro hne
  have hne₂ : vs₂.environments ≠ [] := by
    intro hnil
    rw [← List.length_eq_zero] at hnil
    rw [h₁.1] at hnil
    rw [List.length_eq_zero] at hnil
    exact hne hnil
  exact (h₁.2.2 hne).transEnv (h₂.2.2 hne₂)


theorem VarsAgree.toStmtAgree {A : List String} {vs vs' : Variables}
    (h : VarsAgree A vs vs') : StmtAgree A vs vs' :=
  ⟨h.2.length_eq.symm, forall₂_tail h.2, fun _ => h.1⟩


theorem StmtAgree.monoStmt {A B : List String} {vs vs' : Variables}
    (hAB : ∀ y, y ∈ A → y ∈ B) (h : StmtAgree A vs vs') :
    StmtAgree B vs vs' :=
  ⟨h.1, h.2.1.imp fun _ _ hab => hab.monoEnv hAB,
    fun hne => (h.2.2 hne).monoEnv hAB⟩


theorem mem_append_superset_left {B C A : List String}
    (h : ∀ y, y ∈ B ++ C → y ∈ A) : ∀ y, y ∈ B → y ∈ A :=
  fun y hy => h y (List.mem_append_left C hy)


theorem mem_append_superset_right {B C A : List String}
    (h : ∀ y, y ∈ B ++ C → y ∈ A) : ∀ y, y ∈ C → y ∈ A :=
  fun y hy => h y (List.mem_append_right B hy)


theorem chainRootName_of_root : ∀ (e : Expression) (x : String),
    chainRoot e = .variable x → chainRootName e = [x]
  | .variable y, x, h => by
    injection h with hy
    rw [hy]
    rfl
  | .tupleAccess inner i, x, h => chainRootName_of_root inner x h
  | .unary _ _, x, h => Expression.noConfusion h
  | .binary _ _ _, x, h => Expression.noConfusion h
  | .literal _, x, h => Expression.noConfusion h
  | .grouping _, x, h => Expression.noConfusion h
  | .tuple _, x, h => Expression.noConfusion h


mutual

theorem expr_agree : ∀ (e : Expression) (vs : Variables) (v : Value)
    (vs' : Variables) (A : List String),
    (∀ y, y ∈ exprAssigned e → y ∈ A) →
    interpret_expression e vs = .ok (v, vs') → VarsAgree A vs vs'
  | .unary .minus inner, vs, v, vs', A, hsub, h => by
    rw [exprAssigned] at hsub
    rw [interpret_expression] at h
    obtain ⟨⟨v1, w1⟩, hl, h⟩ := Res.bind_eq_ok h
    dsimp only at h
    have e1 : VarsAgree A vs w1 := expr_agree inner vs v1 w1 A hsub hl
    cases v1 <;> first
      | (injection h with hp; injection hp with h1 h2;
         rw [← h2]; exact e1)
      | exact Res.noConfusion h
  | .unary .not inner, vs, v, vs', A, hsub, h => by
    rw [exprAssigned] at hsub
    rw [interpret_expression] at h
    obtain ⟨⟨v1, w1⟩, hl, h⟩ := Res.bind_eq_ok h
    dsimp only at h
    have e1 : VarsAgree A vs w1 := expr_agree inner vs v1 w1 A hsub hl
    cases v1 <;> first
      | (injection h with hp; injection hp with h1 h2;
         rw [← h2]; exact e1)
      | exact Res.noConfusion h
  | .binary .add l r, vs, v, vs', A, hsub, h => by
    rw [exprAssigned] at hsub
    rw [interpret_expression] at h
    obtain ⟨⟨v1, w1⟩, hl, h⟩ := Res.bind_eq_ok h
    dsimp only at h
    obtain ⟨⟨v2, w2⟩, hr, h⟩ := Res.bind_eq_ok h
    dsimp only at h
    have e1 : VarsAgree A vs w1 :=
      expr_agree l vs v1 w1 A (mem_append_superset_left hsub) hl
    have e2 : VarsAgree A w1 w2 :=
      expr_agree r w1 v2 w2 A (mem_append_superset_right hsub) hr
    cases v1 <;> cases v2 <;> first
      | (injection h with hp; injection hp with h1 h2;
         rw [← h2]; exact e1.transVars e2)
      | exact Res.noConfusion h
  | .binary .subtract l r, vs, v, vs', A, hsub, h => by
    rw [exprAssigned] at hsub
    rw [interpret_expression] at h
    obtain ⟨⟨v1, w1⟩, hl, h⟩ := Res.bind_eq_ok h
    dsimp only at h
    obtain ⟨⟨v2, w2⟩, hr, h⟩ := Res.bind_eq_ok h
    dsimp only at h
    have e1 : VarsAgree A vs w1 :=
      expr_agree l vs v1 w1 A (mem_append_superset_left hsub) hl
    have e2 : VarsAgree A w1 w2 :=
      expr_agree r w1 v2 w2 A (mem_append_superset_right hsub) hr
    cases v1 <;> cases v2 <;> first
      | (injection h with hp; injection hp with h1 h2;
         rw [← h2]; exact e1.transVars e2)
      | exact Res.noConfusion h
  | .binary .multiply l r, vs, v, vs', A, hsub, h => by
    rw [exprAssigned] at hsub
    rw [interpret_expression] at h
    obtain ⟨⟨v1, w1⟩, hl, h⟩ := Res.bind_eq_ok h
    dsimp only at h
    obtain ⟨⟨v2, w2⟩, hr, h⟩ := Res.bind_eq_ok h
    dsimp only at h
    have e1 : VarsAgree A vs w1 :=
      expr_agree l vs v1 w1 A (mem_append_superset_left hsub) hl
    have e2 : VarsAgree A w1 w2 :=
      expr_agree r w1 v2 w2 A (mem_append_superset_right hsub) hr
    cases v1 <;> cases v2 <;> first
      | (injection h with hp; injection hp with h1 h2;
         rw [← h2]; exact e1.transVars e2)
      | exact Res.noConfusion h
  | .binary .divide l r, vs, v, vs', A, hsub, h => by
    rw [exprAssigned] at hsub
    rw [interpret_expression] at h
    obtain ⟨⟨v1, w1⟩, hl, h⟩ := Res.bind_eq_ok h
    dsimp only at h
    obtain ⟨⟨v2, w2⟩, hr, h⟩ := Res.bind_eq_ok h
    dsimp only at h
    have e1 : VarsAgree A vs w1 :=
      expr_agree l vs v1 w1 A (mem_append_superset_left hsub) hl
    have e2 : VarsAgree A w1 w2 :=
      expr_agree r w1 v2 w2 A (mem_append_superset_right hsub) hr
    cases v1 <;> cases v2 <;> first
      | (injection h with hp; injection hp with h1 h2;
         rw [← h2]; exact e1.transVars e2)
      | exact Res.noConfusion h
  | .binary .equal l r, vs, v, vs', A, hsub, h => by
    rw [exprAssigned] at hsub
    rw [interpret_expression] at h
    obtain ⟨⟨v1, w1⟩, hl, h⟩ := Res.bind_eq_ok h
    dsimp only at h
    obtain ⟨⟨v2, w2⟩, hr, h⟩ := Res.bind_eq_ok h
    dsimp only at h
    have e1 : VarsAgree A vs w1 :=
      expr_agree l vs v1 w1 A (mem_append_superset_left hsub) hl
    have e2 : VarsAgree A w1 w2 :=
      expr_agree r w1 v2 w2 A (mem_append_superset_right hsub) hr
    cases v1 <;> cases v2 <;> first
      | (injection h with hp; injection hp with h1 h2;
         rw [← h2]; exact e1.transVars e2)
      | exact Res.noConfusion h
  | .binary .notEqual l r, vs, v, vs', A, hsub, h => by
    rw [exprAssigned] at hsub
    rw [interpret_expression] at h
    obtain ⟨⟨v1, w1⟩, hl, h⟩ := Res.bind_eq_ok h
    dsimp only at h
    obtain ⟨⟨v2, w2⟩, hr, h⟩ := Res.bind_eq_ok h
    dsimp only at h
    have e1 : VarsAgree A vs w1 :=
      expr_agree l vs v1 w1 A (mem_append_superset_left hsub) hl
    have e2 : VarsAgree A w1 w2 :=
      expr_agree r w1 v2 w2 A (mem_append_superset_right hsub) hr
    cases v1 <;> cases v2 <;> first
      | (injection h with hp; injection hp with h1 h2;
         rw [← h2]; exact e1.transVars e2)
      | exact Res.noConfusion h
  | .binary .less l r, vs, v, vs', A, hsub, h => by
    rw [exprAssigned] at hsub
    rw [interpret_expression] at h
    obtain ⟨⟨v1, w1⟩, hl, h⟩ := Res.bind_eq_ok h
    dsimp only at h
    obtain ⟨⟨v2, w2⟩, hr, h⟩ := Res.bind_eq_ok h
    dsimp only at h
    have e1 : VarsAgree A vs w1 :=
      expr_agree l vs v1 w1 A (mem_append_superset_left hsub) hl
    have e2 : VarsAgree A w1 w2 :=
      expr_agree r w1 v2 w2 A (mem_append_superset_right hsub) hr
    cases v1 <;> cases v2 <;> first
      | (injection h with hp; injection hp with h1 h2;
         rw [← h2]; exact e1.transVars e2)
      | exact Res.noConfusion h
  | .binary .lessEqual l r, vs, v, vs', A, hsub, h => by
    rw [exprAssigned] at hsub
    rw [interpret_expression] at h
    obtain ⟨⟨v1, w1⟩, hl, h⟩ := Res.bind_eq_ok h
    dsimp only at h
    obtain ⟨⟨v2, w2⟩, hr, h⟩ := Res.bind_eq_ok h
    dsimp only at h
    have e1 : VarsAgree A vs w1 :=
      expr_agree l vs v1 w1 A (mem_append_superset_left hsub) hl
    have e2 : VarsAgree A w1 w2 :=
      expr_agree r w1 v2 w2 A (mem_append_superset_right hsub) hr
    cases v1 <;> cases v2 <;> first
      | (injection h with hp; injection hp with h1 h2;
         rw [← h2]; exact e1.transVars e2)
      | exact Res.noConfusion h
  | .binary .greater l r, vs, v, vs', A, hsub, h => by
    rw [exprAssigned] at hsub
    rw [interpret_expression] at h
    obtain ⟨⟨v1, w1⟩, hl, h⟩ := Res.bind_eq_ok h
    dsimp only at h
    obtain ⟨⟨v2, w2⟩, hr, h⟩ := Res.bind_eq_ok h
    dsimp only at h
    have e1 : VarsAgree A vs w1 :=
      expr_agree l vs v1 w1 A (mem_append_superset_left hsub) hl
    have e2 : VarsAgree A w1 w2 :=
      expr_agree r w1 v2 w2 A (mem_append_superset_right hsub) hr
    cases v1 <;> cases v2 <;> first
      | (injection h with hp; injection hp with h1 h2;
         rw [← h2]; exact e1.transVars e2)
      | exact Res.noConfusion h
  | .binary .greaterEqual l r, vs, v, vs', A, hsub, h => by
    rw [exprAssigned] at hsub
    rw [interpret_expression] at h
    obtain ⟨⟨v1, w1⟩, hl, h⟩ := Res.bind_eq_ok h
    dsimp only at h
    obtain ⟨⟨v2, w2⟩, hr, h⟩ := Res.bind_eq_ok h
    dsimp only at h
    have e1 : VarsAgree A vs w1 :=
      expr_agree l vs v1 w1 A (mem_append_superset_left hsub) hl
    have e2 : VarsAgree A w1 w2 :=
      expr_agree r w1 v2 w2 A (mem_append_superset_right hsub) hr
    cases v1 <;> cases v2 <;> first
      | (injection h with hp; injection hp with h1 h2;
         rw [← h2]; exact e1.transVars e2)
      | exact Res.noConfusion h
  | .binary .or l r, vs, v, vs', A, hsub, h => by
    rw [exprAssigned] at hsub
    rw [interpret_expression] at h
    obtain ⟨⟨v1, w1⟩, hl, h⟩ := Res.bind_eq_ok h
    dsimp only at h
    have e1 : VarsAgree A vs w1 :=
      expr_agree l vs v1 w1 A (mem_append_superset_left hsub) hl
    cases v1 with
    | boolean b =>
      cases b with
      | true =>
        injection h with hp
        injection hp with h1 h2
        rw [← h2]
        exact e1
      | false => exact e1.transVars (expr_agree r w1 v vs' A
          (mem_append_superset_right hsub) h)
    | number n => exact e1.transVars (expr_agree r w1 v vs' A
        (mem_append_superset_right hsub) h)
    | string s => exact e1.transVars (expr_agree r w1 v vs' A
        (mem_append_superset_right hsub) h)
    | tuple t => exact e1.transVars (expr_agree r w1 v vs' A
        (mem_append_superset_right hsub) h)
  | .binary .and l r, vs, v, vs', A, hsub, h => by
    rw [exprAssigned] at hsub
    rw [interpret_expression] at h
    obtain ⟨⟨v1, w1⟩, hl, h⟩ := Res.bind_eq_ok h
    dsimp only at h
    have e1 : VarsAgree A vs w1 :=
      expr_agree l vs v1 w1 A (mem_append_superset_left hsub) hl
    cases v1 with
    | boolean b =>
      cases b with
      | false =>
        injection h with hp
        injection hp with h1 h2
        rw [← h2]
        exact e1
      | true => exact e1.transVars (expr_agree r w1 v vs' A
          (mem_append_superset_right hsub) h)
    | number n => exact e1.transVars (expr_agree r w1 v vs' A
        (mem_append_superset_right hsub) h)
    | string s => exact e1.transVars (expr_agree r w1 v vs' A
        (mem_append_superset_right hsub) h)
    | tuple t => exact e1.transVars (expr_agree r w1 v vs' A
        (mem_append_superset_right hsub) h)
  | .binary .assignment (.variable x) rhs, vs, v, vs', A, hsub, h => by
    rw [exprAssigned] at hsub
    rw [interpret_expression] at h
    obtain ⟨⟨v1, w1⟩, hr, h⟩ := Res.bind_eq_ok h
    dsimp only at h
    have e1 : VarsAgree A vs w1 :=
      expr_agree rhs vs v1 w1 A (mem_append_superset_right hsub) hr
    cases hset : w1.set_variable x v1 with
    | some vs2 =>
      rw [hset] at h
      injection h with hp
      injection hp with h1 h2
      have hxm : x ∈ lhsAssigned (.variable x) := by
        rw [lhsAssigned]
        exact List.mem_cons_self x []
      have hx : x ∈ A := hsub x (List.mem_append_left _ hxm)
      have e2 : VarsAgree A w1 vs2 := (set_variable_agree hset).monoVars
        (fun y hy => (List.mem_singleton.mp hy) ▸ hx)
      rw [← h2]
      exact e1.transVars e2
    | none =>
      rw [hset] at h
      exact Res.noConfusion h
  | .binary .assignment (.tupleAccess base idx) rhs, vs, v, vs', A,
      hsub, h => by
    rw [exprAssigned] at hsub
    rw [interpret_expression] at h
    obtain ⟨⟨v1, w1⟩, hr, h⟩ := Res.bind_eq_ok h
    dsimp only at h
    have e1 : VarsAgree A vs w1 :=
      expr_agree rhs vs v1 w1 A (mem_append_superset_right hsub) hr
    rcases hcc : collectChain base [idx] with ⟨root, indices⟩
    rw [hcc] at h
    dsimp only at h
    have hroot : root = chainRoot base := by
      have hfst := collectChain_fst base [idx]
      rw [hcc] at hfst
      exact hfst
    cases root
    next op inner =>
      rw [assignToChain_nonvar (Expression.unary op inner) indices v1 w1
        (interpret_expression base w1) rfl] at h
      obtain ⟨⟨bv, w2⟩, hb, h⟩ := Res.bind_eq_ok h
      dsimp only at h
      injection h with hp
      injection hp with h1 h2
      have e2 : VarsAgree A w1 w2 := expr_agree base w1 bv w2 A
        (mem_append_superset_right
          (mem_append_superset_left hsub)) hb
      rw [← h2]
      exact e1.transVars e2
    next op l2 r2 =>
      rw [assignToChain_nonvar (Expression.binary op l2 r2) indices v1 w1
        (interpret_expression base w1) rfl] at h
      obtain ⟨⟨bv, w2⟩, hb, h⟩ := Res.bind_eq_ok h
      dsimp only at h
      injection h with hp
      injection hp with h1 h2
      have e2 : VarsAgree A w1 w2 := expr_agree base w1 bv w2 A
        (mem_append_superset_right
          (mem_append_superset_left hsub)) hb
      rw [← h2]
      exact e1.transVars e2
    next x =>
      rw [assignToChain] at h
      cases hget : w1.get_variable x with
      | none =>
        rw [hget] at h
        exact Res.noConfusion h
      | some tv =>
        rw [hget] at h
        dsimp only at h
        cases hsp : setPath tv indices.reverse v1 with
        | fault e =>
          rw [hsp] at h
          exact Res.noConfusion h
        | timeout =>
          rw [hsp] at h
          exact Res.noConfusion h
        | ok nv =>
          rw [hsp] at h
          dsimp only at h
          cases hset : w1.set_variable x nv with
          | none =>
            rw [hset] at h
            exact Res.noConfusion h
          | some vs2 =>
            rw [hset] at h
            injection h with hp
            injection hp with h1 h2
            have hxm : x ∈ chainRootName base := by
              rw [chainRootName_of_root base x hroot.symm]
              exact List.mem_cons_self x []
            have hx : x ∈ A := hsub x (List.mem_append_left _
              (List.mem_append_left _ hxm))
            have e2 : VarsAgree A w1 vs2 := (set_variable_agree hset).monoVars
              (fun y hy => (List.mem_singleton.mp hy) ▸ hx)
            rw [← h2]
            exact e1.transVars e2
    next lv =>
      rw [assignToChain_nonvar (Expression.literal lv) indices v1 w1
        (interpret_expression base w1) rfl] at h
      obtain ⟨⟨bv, w2⟩, hb, h⟩ := Res.bind_eq_ok h
      dsimp only at h
      injection h with hp
      injection hp with h1 h2
      have e2 : VarsAgree A w1 w2 := expr_agree base w1 bv w2 A
        (mem_append_superset_right
          (mem_append_superset_left hsub)) hb
      rw [← h2]
      exact e1.transVars e2
    next g =>
      rw [assignToChain_nonvar (Expression.grouping g) indices v1 w1
        (interpret_expression base w1) rfl] at h
      obtain ⟨⟨bv, w2⟩, hb, h⟩ := Res.bind_eq_ok h
      dsimp only at h
      injection h with hp
      injection hp with h1 h2
      have e2 : VarsAgree A w1 w2 := expr_agree base w1 bv w2 A
        (mem_append_superset_right
          (mem_append_superset_left hsub)) hb
      rw [← h2]
      exact e1.transVars e2
    next es2 =>
      rw [assignToChain_nonvar (Expression.tuple es2) indices v1 w1
        (interpret_expression base w1) rfl] at h
      obtain ⟨⟨bv, w2⟩, hb, h⟩ := Res.bind_eq_ok h
      dsimp only at h
      injection h with hp
      injection hp with h1 h2
      have e2 : VarsAgree A w1 w2 := expr_agree base w1 bv w2 A
        (mem_append_superset_right
          (mem_append_superset_left hsub)) hb
      rw [← h2]
      exact e1.transVars e2
    next te ti =>
      rw [assignToChain_nonvar (Expression.tupleAccess te ti) indices v1 w1
        (interpret_expression base w1) rfl] at h
      obtain ⟨⟨bv, w2⟩, hb, h⟩ := Res.bind_eq_ok h
      dsimp only at h
      injection h with hp
      injection hp with h1 h2
      have e2 : VarsAgree A w1 w2 := expr_agree base w1 bv w2 A
        (mem_append_superset_right
          (mem_append_superset_left hsub)) hb
      rw [← h2]
      exact e1.transVars e2
  | .binary .assignment (.unary op2 in2) rhs, vs, v, vs', A, hsub, h => by
    rw [interpret_expression] at h
    obtain ⟨⟨v1, w1⟩, hr, h⟩ := Res.bind_eq_ok h
    dsimp only at h
    exact Res.noConfusion h
  | .binary .assignment (.binary op2 l2 r2) rhs, vs, v, vs', A, hsub, h => by
    rw [interpret_expression] at h
    obtain ⟨⟨v1, w1⟩, hr, h⟩ := Res.bind_eq_ok h
    dsimp only at h
    exact Res.noConfusion h
  | .binary .assignment (.literal lv2) rhs, vs, v, vs', A, hsub, h => by
    rw [interpret_expression] at h
    obtain ⟨⟨v1, w1⟩, hr, h⟩ := Res.bind_eq_ok h
    dsimp only at h
    exact Res.noConfusion h
  | .binary .assignment (.grouping in2) rhs, vs, v, vs', A, hsub, h => by
    rw [interpret_expression] at h
    obtain ⟨⟨v1, w1⟩, hr, h⟩ := Res.bind_eq_ok h
    dsimp only at h
    exact Res.noConfusion h
  | .binary .assignment (.tuple es2) rhs, vs, v, vs', A, hsub, h => by
    rw [interpret_expression] at h
    obtain ⟨⟨v1, w1⟩, hr, h⟩ := Res.bind_eq_ok h
    dsimp only at h
    exact Res.noConfusion h
  | .variable x, vs, v, vs', A, hsub, h => by
    rw [interpret_expression] at h
    cases hg : vs.get_variable x with
    | some w =>
      rw [hg] at h
      injection h with hp
      injection hp with h1 h2
      rw [← h2]
      exact VarsAgree.reflVars A vs
    | none =>
      rw [hg] at h
      exact Res.noConfusion h
  | .literal lv, vs, v, vs', A, hsub, h => by
    rw [interpret_expression] at h
    injection h with hp
    injection hp with h1 h2
    rw [← h2]
    exact VarsAgree.reflVars A vs
  | .grouping inner, vs, v, vs', A, hsub, h => by
    rw [exprAssigned] at hsub
    rw [interpret_expression] at h
    exact expr_agree inner vs v vs' A hsub h
  | .tuple es, vs, v, vs', A, hsub, h => by
    rw [exprAssigned] at hsub
    rw [interpret_expression] at h
    obtain ⟨⟨lv1, w1⟩, hl, h⟩ := Res.bind_eq_ok h
    dsimp only at h
    have e1 : VarsAgree A vs w1 := exprList_agree es vs lv1 w1 A hsub hl
    injection h with hp
    injection hp with h1 h2
    rw [← h2]
    exact e1
  | .tupleAccess inner idx, vs, v, vs', A, hsub, h => by
    rw [exprAssigned] at hsub
    rw [interpret_expression] at h
    obtain ⟨⟨v1, w1⟩, hl, h⟩ := Res.bind_eq_ok h
    dsimp only at h
    have e1 : VarsAgree A vs w1 := expr_agree inner vs v1 w1 A hsub hl
    cases v1 with
    | tuple values =>
      dsimp only at h
      by_cases hlen : idx < values.length
      · rw [dif_pos hlen] at h
        injection h with hp
        injection hp with h1 h2
        rw [← h2]
        exact e1
      · rw [dif_neg hlen] at h
        exact Res.noConfusion h
    | number n => exact Res.noConfusion h
    | string s => exact Res.noConfusion h
    | boolean b => exact Res.noConfusion h

theorem exprList_agree : ∀ (es : List Expression) (vs : Variables)
    (lv : List Value) (vs' : Variables) (A : List String),
    (∀ y, y ∈ exprListAssigned es → y ∈ A) →
    interpret_expressions es vs = .ok (lv, vs') → VarsAgree A vs vs'
  | [], vs, lv, vs', A, hsub, h => by
    rw [interpret_expressions] at h
    injection h with hp
    injection hp with h1 h2
    rw [← h2]
    exact VarsAgree.reflVars A vs
  | e :: rest, vs, lv, vs', A, hsub, h => by
    rw [exprListAssigned] at hsub
    rw [interpret_expressions] at h
    obtain ⟨⟨v1, w1⟩, h1, h⟩ := Res.bind_eq_ok h
    dsimp only at h
    obtain ⟨⟨lv2, w2⟩, h2, h⟩ := Res.bind_eq_ok h
    dsimp only at h
    have e1 : VarsAgree A vs w1 :=
      expr_agree e vs v1 w1 A (mem_append_superset_left hsub) h1
    have e2 : VarsAgree A w1 w2 :=
      exprList_agree rest w1 lv2 w2 A (mem_append_superset_right hsub) h2
    injection h with hp
    injection hp with ha hb
    rw [← hb]
    exact e1.transVars e2

end

theorem create_variable_stmtAgree (A : List String) (vs : Variables)
    (x : String) (v : Value) :
    StmtAgree A vs (vs.create_variable x v) := by
  cases henv : vs.environments with
  | nil =>
    have hc : vs.create_variable x v =
        { vs with global_variables := vs.global_variables.insert x v } := by
      rw [Variables.create_variable, henv]
    rw [hc]
    exact ⟨rfl, List.forall₂_same.mpr fun m _ => EnvAgree.reflEnv A m,
      fun hne => absurd henv hne⟩
  | cons e rest =>
    have hc : vs.create_variable x v =
        { vs with environments := e.insert x v :: rest } := by
      rw [Variables.create_variable, henv]
    rw [hc]
    refine ⟨by rw [henv]; rfl, ?_, fun _ => EnvAgree.reflEnv A _⟩
    rw [henv]
    exact List.forall₂_same.mpr fun m _ => EnvAgree.reflEnv A m


theorem interpStep_agree : ∀ (fuel : Nat)
    (t : Statement ⊕ List Statement) (vs vs' : Variables)
    (out : List Value) (A : List String),
    (∀ y, y ∈ (match t with
      | .inl s => stmtAssigned s
      | .inr l => stmtListAssigned l) → y ∈ A) →
    interpStep fuel t vs = .ok (vs', out) → StmtAgree A vs vs'
  | 0, t, vs, vs', out, A, hsub, h => by
    rw [interpStep] at h
    exact Res.noConfusion h
  | fuel + 1, .inl (.expression e), vs, vs', out, A, hsub, h => by
    rw [interpStep] at h
    obtain ⟨⟨v1, w1⟩, he, h⟩ := Res.bind_eq_ok h
    dsimp only at h
    injection h with hp
    injection hp with h1 h2
    have e1 : VarsAgree A vs w1 := expr_agree e vs v1 w1 A
      (fun y hy => hsub y (by
        dsimp only
        rw [stmtAssigned.eq_def]
        exact hy)) he
    rw [← h1]
    exact e1.toStmtAgree
  | fuel + 1, .inl (.variableDeclaration x e), vs, vs', out, A, hsub,
      h => by
    rw [interpStep] at h
    obtain ⟨⟨v1, w1⟩, he, h⟩ := Res.bind_eq_ok h
    dsimp only at h
    injection h with hp
    injection hp with h1 h2
    have e1 : VarsAgree A vs w1 := expr_agree e vs v1 w1 A
      (fun y hy => hsub y (by
        dsimp only
        rw [stmtAssigned.eq_def]
        exact hy)) he
    rw [← h1]
    exact e1.toStmtAgree.transStmt (create_variable_stmtAgree A w1 x v1)
  | fuel + 1, .inl (.block stmts), vs, vs', out, A, hsub, h => by
    rw [interpStep] at h
    obtain ⟨⟨w1, out1⟩, hb, h⟩ := Res.bind_eq_ok h
    dsimp only at h
    injection h with hp
    injection hp with h1 h2
    have ih : StmtAgree A vs.push_environment w1 :=
      interpStep_agree fuel (.inr stmts) vs.push_environment w1 out1 A
        (fun y hy => hsub y (by
          dsimp only
          rw [stmtAssigned.eq_def]
          dsimp only at hy
          exact hy)) hb
    rw [← h1]
    refine ⟨?_, ?_, ?_⟩
    · rw [Variables.pop_environment]
      have hlen := ih.1
      rw [Variables.push_environment] at hlen
      dsimp only at hlen ⊢
      rw [List.length_tail, hlen]
      rfl
    · have htails := ih.2.1
      rw [Variables.push_environment] at htails
      dsimp only at htails
      rw [Variables.pop_environment]
      dsimp only
      exact forall₂_tail htails
    · intro hne
      have hg := ih.2.2 (by
        rw [Variables.push_environment]
        exact List.cons_ne_nil _ _)
      rw [Variables.push_environment] at hg
      rw [Variables.pop_environment]
      exact hg
  | fuel + 1, .inl (.ifS c tS eOpt), vs, vs', out, A, hsub, h => by
    rw [interpStep] at h
    obtain ⟨⟨cv, w1⟩, hc, h⟩ := Res.bind_eq_ok h
    dsimp only at h
    have e1 : VarsAgree A vs w1 := expr_agree c vs cv w1 A
      (fun y hy => hsub y (by
        dsimp only
        rw [stmtAssigned.eq_def]
        exact List.mem_append_left _ (List.mem_append_left _ hy))) hc
    cases cv with
    | boolean b =>
      cases b with
      | true =>
        have ih : StmtAgree A w1 vs' :=
          interpStep_agree fuel (.inl tS) w1 vs' out A
            (fun y hy => hsub y (by
              dsimp only
              rw [stmtAssigned.eq_def]
              dsimp only at hy
              exact List.mem_append_left _
                (List.mem_append_right _ hy))) h
        exact e1.toStmtAgree.transStmt ih
      | false =>
        cases eOpt with
        | some s' =>
          have ih : StmtAgree A w1 vs' :=
            interpStep_agree fuel (.inl s') w1 vs' out A
              (fun y hy => hsub y (by
                dsimp only
                rw [stmtAssigned.eq_def]
                dsimp only at hy
                exact List.mem_append_right _ hy)) h
          exact e1.toStmtAgree.transStmt ih
        | none =>
          injection h with hp
          injection hp with h1 h2
          rw [← h1]
          exact e1.toStmtAgree
    | number n => exact Res.noConfusion h
    | string s => exact Res.noConfusion h
    | tuple t => exact Res.noConfusion h
  | fuel + 1, .inl (.whileS c b), vs, vs', out, A, hsub, h => by
    rw [interpStep] at h
    obtain ⟨⟨cv, w1⟩, hc, h⟩ := Res.bind_eq_ok h
    dsimp only at h
    have e1 : VarsAgree A vs w1 := expr_agree c vs cv w1 A
      (fun y hy => hsub y (by
        dsimp only
        rw [stmtAssigned.eq_def]
        exact List.mem_append_left _ hy)) hc
    cases cv with
    | boolean bb =>
      cases bb with
      | false =>
        injection h with hp
        injection hp with h1 h2
        rw [← h1]
        exact e1.toStmtAgree
      | true =>
        obtain ⟨⟨w2, out1⟩, hb, h⟩ := Res.bind_eq_ok h
        dsimp only at h
        obtain ⟨⟨w3, out2⟩, hw, h⟩ := Res.bind_eq_ok h
        dsimp only at h
        injection h with hp
        injection hp with h1 h2
        have ihb : StmtAgree A w1 w2 :=
          interpStep_agree fuel (.inl b) w1 w2 out1 A
            (fun y hy => hsub y (by
              dsimp only
              rw [stmtAssigned.eq_def]
              dsimp only at hy
              exact List.mem_append_right _ hy)) hb
        have ihw : StmtAgree A w2 w3 :=
          interpStep_agree fuel (.inl (.whileS c b)) w2 w3 out2 A hsub hw
        rw [← h1]
        exact (e1.toStmtAgree.transStmt ihb).transStmt ihw
    | number n => exact Res.noConfusion h
    | string s => exact Res.noConfusion h
    | tuple t => exact Res.noConfusion h
  | fuel + 1, .inr [], vs, vs', out, A, hsub, h => by
    rw [interpStep] at h
    injection h with hp
    injection hp with h1 h2
    rw [← h1]
    exact StmtAgree.reflStmt A vs
  | fuel + 1, .inr (s :: rest), vs, vs', out, A, hsub, h => by
    rw [interpStep] at h
    obtain ⟨⟨w1, out1⟩, hs, h⟩ := Res.bind_eq_ok h
    dsimp only at h
    obtain ⟨⟨w2, out2⟩, hr, h⟩ := Res.bind_eq_ok h
    dsimp only at h
    injection h with hp
    injection hp with h1 h2
    have ih1 : StmtAgree A vs w1 :=
      interpStep_agree fuel (.inl s) vs w1 out1 A
        (fun y hy => hsub y (by
          dsimp only
          rw [stmtListAssigned.eq_def]
          dsimp only at hy
          exact List.mem_append_left _ hy)) hs
    have ih2 : StmtAgree A w1 w2 :=
      interpStep_agree fuel (.inr rest) w1 w2 out2 A
        (fun y hy => hsub y (by
          dsimp only
          rw [stmtListAssigned.eq_def]
          dsimp only at hy
          exact List.mem_append_right _ hy)) hr
    rw [← h1]
    exact ih1.transStmt ih2


/-- C6: a Block that runs to completion pops the table it pushed: the
number of block tables is restored, a name unbound before the block is
still unbound after it (no binding declared inside survives), and every
binding the block's statements do not syntactically assign to reads back
unchanged. Concretely, running a Block that declares x and then reading x
afterwards is an undefined-variable fault when x was never declared
outside. -/
theorem c6_block_scope (fuel : Nat) (stmts : List Statement)
    (vs vs' : Variables) (out : List Value) :
    (interpret_statement fuel (.block stmts) vs = .ok (vs', out) →
      vs'.environments.length = vs.environments.length ∧
      (∀ y, vs.get_variable y = none → vs'.get_variable y = none) ∧
      (∀ y, y ∉ stmtListAssigned stmts →
        vs'.get_variable y = vs.get_variable y)) ∧
    interpret 5 [.block [.variableDeclaration "x" (.literal (.number 1))],
      .expression (.variable "x")] [] = .fault .undefinedVariable := by
  refine ⟨?_, rfl⟩
  intro h
  cases fuel with
  | zero =>
    rw [interpret_statement, interpStep] at h
    exact Res.noConfusion h
  | succ fuel =>
    rw [interpret_statement, interpStep] at h
    obtain ⟨⟨w1, out1⟩, hb, h⟩ := Res.bind_eq_ok h
    dsimp only at h
    injection h with hp
    injection hp with h1 h2
    have ih := interpStep_agree fuel (.inr stmts) vs.push_environment w1
      out1 (stmtListAssigned stmts) (fun y hy => hy) hb
    have hV : VarsAgree (stmtListAssigned stmts) vs vs' := by
      rw [← h1]
      exact ⟨ih.2.2 (List.cons_ne_nil _ _), ih.2.1⟩
    refine ⟨hV.2.length_eq.symm, ?_, ?_⟩
    · intro y hy
      have hiso := (get_variable_agree hV y).1
      rw [hy] at hiso
      cases hgy : vs'.get_variable y with
      | some w =>
        rw [hgy] at hiso
        cases hiso
      | none => rfl
    · intro y hy
      exact ((get_variable_agree hV y).2 hy).symm


/-- Witness for C6 at a concrete input: a block declaring z over the
scope stack with only a global a leaves z unbound and a unchanged. -/
theorem c6_block_scope_witness :
    Variables.get_variable ⟨[("a", Value.number 1)], []⟩ "z" = none ∧
    Variables.get_variable ⟨[("a", Value.number 1)], []⟩ "a" =
      Variables.get_variable ⟨[("a", Value.number 1)], []⟩ "a" := by
  have h := (c6_block_scope 3
    [.variableDeclaration "z" (.literal (.number 2))]
    ⟨[("a", .number 1)], []⟩ ⟨[("a", .number 1)], []⟩ []).1 rfl
  exact ⟨h.2.1 "z" rfl,
    h.2.2 "a" (by simp [stmtListAssigned, stmtAssigned, exprAssigned])⟩

